import Mathlib

/-!
# Verification of the prism-data-layer parallel task runners

Shallow embedding of the three parallel runner scripts of the repository:

* `tooling/parallel_acceptance_test.py` (namespace `PAccept`)
* `tooling/parallel_test.py`            (namespace `PTest`)
* `tooling/parallel_lint.py`            (namespace `PLint`)

Pure computations (score aggregation, output parsing, status derivation)
are translated function by function.  The asyncio orchestration of
`parallel_test.py` is embedded as a small-step cooperative scheduler: one
step runs one coroutine up to its next suspension point, and a schedule
(a list of task indices) chooses the interleaving.  Python floats are
modelled as exact rationals; wall-clock durations as natural numbers of
seconds; spawned processes by their observable behaviour (seconds until
stdout EOF, seconds until exit, return code).
-/

namespace Prism

/-! ## Python string primitives

Faithful counterparts of the Python string operations used by the
scripts, implemented by structural recursion over the character list so
that every theorem about a concrete string evaluates.  `pySplitOn`
models `str.split(sep)` for a non-empty separator (leftmost,
non-overlapping matches, empties kept); `pyContains s sub` is Python's
`sub in s`; `pySplitWs` is `str.split()` with no separator (splits on
whitespace, discarding empties); `pyStrip` is `str.strip()`; `pyFloat?`
is `float(...)` restricted to plain decimal literals (the only shape
the go-test durations take), returning `none` where Python would raise
`ValueError`. -/

/-- Does `pat` begin the character list `cs`? -/
def beginsWith : List Char → List Char → Bool
  | [], _ => true
  | _ :: _, [] => false
  | a :: as, b :: bs => a == b && beginsWith as bs

/-- Split `cs` at every leftmost occurrence of the non-empty separator
`sep`.  `fuel` bounds the recursion; it is in excess of `cs.length`. -/
def splitOnGo (sep : List Char) (acc : List Char) (out : List (List Char)) :
    List Char → Nat → List (List Char)
  | cs, 0 => out ++ [acc ++ cs]
  | [], _ + 1 => out ++ [acc]
  | c :: cs, fuel + 1 =>
      if beginsWith sep (c :: cs) then
        splitOnGo sep [] (out ++ [acc]) (List.drop sep.length (c :: cs)) fuel
      else
        splitOnGo sep (acc ++ [c]) out cs fuel

/-- Python `s.split(sep)` for non-empty `sep`. -/
def pySplitOn (s sep : String) : List String :=
  if sep = "" then [s]
  else (splitOnGo sep.toList [] [] s.toList (s.toList.length + 1)).map
    (fun cs => String.mk cs)

def pyContains (s sub : String) : Bool := 1 < (pySplitOn s sub).length

/-- Split at each whitespace character (empties kept). -/
def wsSplitGo (acc : List Char) : List Char → List (List Char)
  | [] => [acc]
  | c :: cs => if c.isWhitespace then acc :: wsSplitGo [] cs else wsSplitGo (acc ++ [c]) cs

def pySplitWs (s : String) : List String :=
  ((wsSplitGo [] s.toList).map (fun cs => String.mk cs)).filter (fun t => !(t = ""))

/-- Python `s.strip()`. -/
def pyStrip (s : String) : String :=
  String.mk (((s.toList.dropWhile Char.isWhitespace).reverse.dropWhile
    Char.isWhitespace).reverse)

def digitsVal? (cs : List Char) : Option Nat :=
  cs.foldl (fun acc c =>
    match acc with
    | none => none
    | some n => if c.isDigit then some (n * 10 + (c.toNat - 48)) else none) (some 0)

def pyFloat? (s : String) : Option ℚ :=
  let t := pyStrip s
  let (sign, body) : ℚ × String :=
    if beginsWith ['-'] t.toList then (-1, String.mk (t.toList.drop 1))
    else if beginsWith ['+'] t.toList then (1, String.mk (t.toList.drop 1))
    else (1, t)
  match pySplitOn body "." with
  | [intPart] =>
      if intPart = "" then none
      else (digitsVal? intPart.toList).map (fun n => sign * (n : ℚ))
  | [intPart, fracPart] =>
      if intPart = "" && fracPart = "" then none
      else
        match digitsVal? intPart.toList, digitsVal? fracPart.toList with
        | some a, some b =>
            some (sign * ((a : ℚ) + (b : ℚ) / (10 : ℚ) ^ fracPart.toList.length))
        | _, _ => none
  | _ => none

/-- Decidable equality for `Except`, needed to evaluate parser results
in closed theorems. -/
instance exceptDecEq {e a : Type} [DecidableEq e] [DecidableEq a] : DecidableEq (Except e a)
  | .error x, .error y =>
      if h : x = y then .isTrue (congrArg Except.error h)
      else .isFalse (fun hc => h (Except.error.inj hc))
  | .error _, .ok _ => .isFalse (fun hc => Except.noConfusion hc)
  | .ok _, .error _ => .isFalse (fun hc => Except.noConfusion hc)
  | .ok x, .ok y =>
      if h : x = y then .isTrue (congrArg Except.ok h)
      else .isFalse (fun hc => h (Except.ok.inj hc))

end Prism

namespace Prism.PAccept

/-! ## `tooling/parallel_acceptance_test.py` -/

/-- `TestStatus` of parallel_acceptance_test.py. -/
inductive TestStatus
  | pass
  | fail
  | skip
  | error
  | not_supported
deriving DecidableEq, Repr

/-- `TestResult` dataclass: result of one backend/pattern combination. -/
structure TestResult where
  backend : String
  pattern : String
  status : TestStatus
  duration : ℚ
  output : String := ""
  error : String := ""
deriving DecidableEq, Repr

/-- `TestResult.passed`. -/
def TestResult.passed (r : TestResult) : Bool := r.status = TestStatus.pass

/-- `AcceptanceReport` dataclass (the fields the scores read). -/
structure AcceptanceReport where
  timestamp : String
  duration : ℚ
  results : List TestResult := []
deriving DecidableEq, Repr

/-- `AcceptanceReport.backend_score`: compliance score of one backend,
translated from lines 119-125 of the source. -/
def backend_score (rep : AcceptanceReport) (backend : String) : ℚ :=
  let backend_results := rep.results.filter
    (fun r => decide (r.backend = backend) && !decide (r.status = TestStatus.not_supported))
  if backend_results.isEmpty then 0
  else
    let passed := (backend_results.filter (fun r => decide (r.status = TestStatus.pass))).length
    ((passed : ℚ) / (backend_results.length : ℚ)) * 100

/-- `AcceptanceReport.pattern_score`: compliance score of one pattern,
translated from lines 127-133 of the source. -/
def pattern_score (rep : AcceptanceReport) (pattern : String) : ℚ :=
  let pattern_results := rep.results.filter
    (fun r => decide (r.pattern = pattern) && !decide (r.status = TestStatus.not_supported))
  if pattern_results.isEmpty then 0
  else
    let passed := (pattern_results.filter (fun r => decide (r.status = TestStatus.pass))).length
    ((passed : ℚ) / (pattern_results.length : ℚ)) * 100

/-- Modelled from the spec: the score formula as the specification words it
for claim C1 — `100 * passed(d) / (passed(d) + failed(d) + errored(d))`
over the non-not_supported rows of backend `d`, `0` when there are no
applicable rows.  Written for comparison with `backend_score`, which is
the translation of the source. -/
def spec_backend_score (rep : AcceptanceReport) (backend : String) : ℚ :=
  let rows := rep.results.filter
    (fun r => decide (r.backend = backend) && !decide (r.status = TestStatus.not_supported))
  let p := (rows.filter (fun r => decide (r.status = TestStatus.pass))).length
  let f := (rows.filter (fun r => decide (r.status = TestStatus.fail))).length
  let e := (rows.filter (fun r => decide (r.status = TestStatus.error))).length
  if p + f + e = 0 then 0 else 100 * (p : ℚ) / ((p : ℚ) + (f : ℚ) + (e : ℚ))

/-- Rows of the report attributed to backend `b` that count toward its
score denominator in the source (status other than `not_supported`). -/
def applicableB (rep : AcceptanceReport) (b : String) : Nat :=
  rep.results.countP (fun r => decide (r.backend = b ∧ r.status ≠ TestStatus.not_supported))

/-- Passing rows of backend `b`. -/
def passedB (rep : AcceptanceReport) (b : String) : Nat :=
  rep.results.countP (fun r => decide (r.backend = b ∧ r.status = TestStatus.pass))

/-- Rows of the report attributed to pattern `p` with status other than
`not_supported`. -/
def applicableP (rep : AcceptanceReport) (p : String) : Nat :=
  rep.results.countP (fun r => decide (r.pattern = p ∧ r.status ≠ TestStatus.not_supported))

/-- Passing rows of pattern `p`. -/
def passedP (rep : AcceptanceReport) (p : String) : Nat :=
  rep.results.countP (fun r => decide (r.pattern = p ∧ r.status = TestStatus.pass))

/-! ### `_parse_go_test_output`

The parser keeps `backend_tests`, an insertion-ordered dict from backend
name to `(status, duration)`; Python dicts preserve insertion order and
in-place updates keep the original position, which the association list
below reproduces.  Two of the extraction expressions
(`parts[1].split()[0]` and `line.split(":")[0].strip().split()[-1]`)
raise `IndexError` on degenerate lines; the embedding propagates that as
`Except.error ()`, which `run_pattern_tests` later catches exactly as
the Python `except Exception` clause does. -/

/-- One `backend_tests` entry: status and duration. -/
abbrev BackendEntry := TestStatus × ℚ

/-- `backend in backend_tests`. -/
def dictContains (d : List (String × BackendEntry)) (k : String) : Bool :=
  d.any (fun e => decide (e.1 = k))

/-- `backend_tests[backend] = v`: replace in place, or append when new. -/
def dictSet (d : List (String × BackendEntry)) (k : String) (v : BackendEntry) :
    List (String × BackendEntry) :=
  if dictContains d k then d.map (fun e => if e.1 = k then (k, v) else e)
  else d ++ [(k, v)]

/-- Processing of one line of go-test output by `_parse_go_test_output`
(the body of its `for line in lines` loop). -/
def parseGoLine (st : Except Unit (List (String × BackendEntry))) (line : String) :
    Except Unit (List (String × BackendEntry)) :=
  match st with
  | .error e => .error e
  | .ok d =>
    if pyContains line "=== RUN" then
      let parts := pySplitOn line "/"
      if 2 ≤ parts.length then
        let backend := pyStrip (parts.getD 1 "")
        if dictContains d backend then .ok d
        else .ok (d ++ [(backend, (TestStatus.pass, 0))])
      else .ok d
    else if pyContains line "--- PASS:" || pyContains line "--- FAIL:" ||
        pyContains line "--- SKIP:" then
      let parts := pySplitOn line "/"
      if 2 ≤ parts.length then
        -- backend = parts[1].split()[0] (IndexError when parts[1] is blank)
        match pySplitWs (parts.getD 1 "") with
        | [] => .error ()
        | backend :: _ =>
          -- status_str = line.split(":")[0].strip().split()[-1]
          match (pySplitWs (pyStrip ((pySplitOn line ":").getD 0 ""))).getLast? with
          | none => .error ()
          | some status_str =>
            let duration : ℚ :=
              if pyContains line "(" && pyContains line "s)" then
                match pyFloat? ((((pySplitOn line "(").getD 1 "") |> (fun z => pySplitOn z "s)")).getD 0 "") with
                | some q => q
                | none => 0
              else 0
            if parts.length = 2 then
              if status_str = "PASS" then .ok (dictSet d backend (TestStatus.pass, duration))
              else if status_str = "FAIL" then .ok (dictSet d backend (TestStatus.fail, duration))
              else if status_str = "SKIP" then .ok (dictSet d backend (TestStatus.skip, duration))
              else .ok d
            else .ok d
      else .ok d
    else .ok d

/-- The dict accumulated over a list of lines (`.ok` initial state). -/
def parseLines (lines : List String) : Except Unit (List (String × BackendEntry)) :=
  lines.foldl parseGoLine (.ok [])

/-- `_parse_go_test_output`: split the captured output on newlines, fold
the per-line step, and turn the dict into `TestResult`s in insertion
order.  The `total_duration` parameter is unused, as in the source. -/
def parse_go_test_output (output : String) (pattern : String) (_total_duration : ℚ) :
    Except Unit (List TestResult) :=
  match parseLines (pySplitOn output "\n") with
  | .error e => .error e
  | .ok d => .ok (d.map (fun e =>
      { backend := e.1, pattern := pattern, status := e.2.1, duration := e.2.2,
        output := output }))

/-! ### `run_pattern_tests`

The spawned `go test` process is abstracted to its observable event:
either `create_subprocess_exec` (or anything before the fail-fast check)
raised, or the process ran and delivered combined output plus a return
code.  `sys.exit(1)` in the fail-fast branch raises `SystemExit`, which
is not an `Exception` and escapes the handler; it is modelled as
`Except.error 1` (the process-level abort).  Wall-clock duration is a
parameter. -/

inductive PatternRunEvent
  | spawnFail (msg : String)
  | ran (output : String) (returncode : Int)
deriving DecidableEq, Repr

def run_pattern_tests (patternName : String) (fail_fast : Bool) (ev : PatternRunEvent)
    (duration : ℚ) : Except Int (List TestResult) :=
  match ev with
  | .spawnFail msg =>
      .ok [{ backend := "All", pattern := patternName, status := TestStatus.error,
             duration := duration, error := msg }]
  | .ran output returncode =>
      match parse_go_test_output output patternName duration with
      | .error _ =>
          -- IndexError from the parser reaches the same `except Exception`
          .ok [{ backend := "All", pattern := patternName, status := TestStatus.error,
                 duration := duration, error := "list index out of range" }]
      | .ok parsed =>
          let results :=
            if parsed.isEmpty then
              [{ backend := "All", pattern := patternName,
                 status := if returncode = 0 then TestStatus.pass else TestStatus.fail,
                 duration := duration, output := output }]
            else parsed
          if fail_fast && results.any (fun r => !r.passed) then .error 1
          else .ok results

end Prism.PAccept

namespace Prism.PTest

/-! ## `tooling/parallel_test.py` -/

/-- `TestStatus` of parallel_test.py.  Note: the enum has no `errored`
value. -/
inductive TestStatus
  | pending
  | running
  | passed
  | failed
  | skipped
deriving DecidableEq, Repr

/-! ### `_execute_suite`

The spawned shell command is abstracted to its observable behaviour:
`eofTime` seconds until the combined stdout pipe reaches EOF (for a
command with no further output this coincides with process exit, which
closes the pipe), `exitTime` seconds until the process exits, and its
return code; or a spawn failure (`create_subprocess_shell` raising).

Control flow of the source: the `readline` loop blocks until EOF with no
timeout applied, and only afterwards `asyncio.wait_for(process.wait(),
timeout=suite.timeout)` races the *remaining* wait against the timeout.
So the timeout fires iff `exitTime - eofTime > timeout`; on fire the
process is killed, `return_code = -1` and a timeout message is set; the
status is then derived from the return code (`0` ⇒ passed, else
failed). -/

structure ProcBehavior where
  eofTime : Nat
  exitTime : Nat
  returncode : Int
deriving DecidableEq, Repr

inductive ProcEvent
  | spawnFail (msg : String)
  | runs (p : ProcBehavior)
deriving DecidableEq, Repr

structure ExecOutcome where
  status : TestStatus
  return_code : Int
  error_message : Option String
  killed : Bool
  elapsed : Nat
deriving DecidableEq, Repr

def execute_suite (timeout : Nat) (ev : ProcEvent) : ExecOutcome :=
  match ev with
  | .spawnFail msg =>
      -- except Exception: return_code = -1, error_message = str(e);
      -- then return_code ≠ 0 derives FAILED
      { status := TestStatus.failed, return_code := -1, error_message := some msg,
        killed := false, elapsed := 0 }
  | .runs p =>
      if p.exitTime - p.eofTime > timeout then
        { status := TestStatus.failed, return_code := -1,
          error_message := some ("Timeout after " ++ toString timeout ++ "s"),
          killed := true, elapsed := p.eofTime + timeout }
      else
        { status := if p.returncode = 0 then TestStatus.passed else TestStatus.failed,
          return_code := p.returncode, error_message := none, killed := false,
          elapsed := max p.eofTime p.exitTime }

/-! ### The scheduler (`ParallelTestRunner.run_suite` under asyncio)

One suite's coroutine (`run_suite`) passes in order through: the
dependency loop, the fail-fast check, semaphore acquisition, group-lock
acquisition (when it has a `parallel_group`), execution, and the
`finally` that signals its completion event.  `Phase` records where the
coroutine stands; `step ff suites st i` runs coroutine `i` up to its
next suspension point (a no-op when it is blocked on an event, the
semaphore, or a lock).  A schedule is a list of indices; asyncio's
single-threaded event loop realizes one such interleaving, so safety
properties proved over all schedules cover it.  `_execute_suite` is
abstracted to whether the suite ends `passed` (`TestSuite.passes`);
`self.failed` is set exactly when a suite ends `failed`.  The global
clock counts scheduler steps and stamps `start_time` / `end_time`. -/

/-- The configuration fields of the `TestSuite` dataclass, plus the
abstracted execution outcome. -/
structure TestSuite where
  name : String
  depends_on : List String := []
  parallel_group : Option String := none
  passes : Bool := true
deriving DecidableEq, Repr

inductive Phase
  | waitDeps (remaining : List String)
  | checkFF
  | waitSem
  | waitLock
  | running
  | done
deriving DecidableEq, Repr

/-- The mutable runtime fields of one `TestSuite`. -/
structure TaskState where
  phase : Phase
  status : TestStatus
  error_message : Option String
  start_time : Option Nat
  end_time : Option Nat
deriving DecidableEq, Repr

/-- Shared runner state: per-task states (aligned with the suite list),
the semaphore counter, `self.failed`, the set of currently held group
locks, and the step clock. -/
structure RunnerState where
  tasks : List TaskState
  semCount : Nat
  failed : Bool
  locks : List String
  clock : Nat
deriving DecidableEq, Repr

def initTask (s : TestSuite) : TaskState :=
  { phase := Phase.waitDeps s.depends_on, status := TestStatus.pending,
    error_message := none, start_time := none, end_time := none }

/-- `ParallelTestRunner.__init__`: creates per-suite state and completion
events and sizes the semaphore; it performs no validation of any kind
(no duplicate-name, unresolvable-dependency or cycle check exists in the
source). -/
def initState (suites : List TestSuite) (max_parallel : Nat) : RunnerState :=
  { tasks := suites.map initTask, semCount := max_parallel, failed := false,
    locks := [], clock := 0 }

/-- `dep in self.completion_events`: an event exists for every suite
name in the registry. -/
def hasEvent (suites : List TestSuite) (dep : String) : Bool :=
  suites.any (fun s => decide (s.name = dep))

/-- The completion event of name `dep` is set: some task with that name
has run its `finally` block. -/
def eventSet (suites : List TestSuite) (tasks : List TaskState) (dep : String) : Bool :=
  (suites.zip tasks).any (fun p => decide (p.1.name = dep) && decide (p.2.phase = Phase.done))

/-- `next((s for s in self.suites if s.name == dep), None)` as an index. -/
def firstIndexOf (suites : List TestSuite) (dep : String) : Option Nat :=
  suites.findIdx? (fun s => decide (s.name = dep))

/-- Run coroutine `i` to its next suspension point. -/
def step (fail_fast : Bool) (suites : List TestSuite) (st : RunnerState) (i : Nat) :
    RunnerState :=
  match st.tasks.get? i, suites.get? i with
  | some ti, some sp =>
    match ti.phase with
    | Phase.waitDeps [] =>
        { st with clock := st.clock + 1,
                  tasks := st.tasks.set i { ti with phase := Phase.checkFF } }
    | Phase.waitDeps (dep :: rest) =>
        if hasEvent suites dep then
          if eventSet suites st.tasks dep then
            match firstIndexOf suites dep with
            | some j =>
                match st.tasks.get? j with
                | some tj =>
                    if tj.status = TestStatus.passed then
                      { st with clock := st.clock + 1,
                                tasks := st.tasks.set i { ti with phase := Phase.waitDeps rest } }
                    else
                      { st with clock := st.clock + 1,
                                tasks := st.tasks.set i
                                  { ti with phase := Phase.done, status := TestStatus.skipped,
                                            error_message :=
                                              some ("Dependency " ++ dep ++ " did not pass") } }
                | none => { st with clock := st.clock + 1 }
            | none =>
                -- dep_suite is None: the loop moves on (unreachable when the
                -- event exists, kept for totality)
                { st with clock := st.clock + 1,
                          tasks := st.tasks.set i { ti with phase := Phase.waitDeps rest } }
          else { st with clock := st.clock + 1 }  -- suspended on the event
        else
          -- name not in completion_events: silently skipped over
          { st with clock := st.clock + 1,
                    tasks := st.tasks.set i { ti with phase := Phase.waitDeps rest } }
    | Phase.checkFF =>
        if fail_fast && st.failed then
          { st with clock := st.clock + 1,
                    tasks := st.tasks.set i
                      { ti with phase := Phase.done, status := TestStatus.skipped,
                                error_message := some "Skipped due to fail-fast" } }
        else
          { st with clock := st.clock + 1,
                    tasks := st.tasks.set i { ti with phase := Phase.waitSem } }
    | Phase.waitSem =>
        if st.semCount = 0 then { st with clock := st.clock + 1 }  -- suspended on the semaphore
        else
          match sp.parallel_group with
          | some _ =>
              { st with clock := st.clock + 1, semCount := st.semCount - 1,
                        tasks := st.tasks.set i { ti with phase := Phase.waitLock } }
          | none =>
              { st with clock := st.clock + 1, semCount := st.semCount - 1,
                        tasks := st.tasks.set i
                          { ti with phase := Phase.running, status := TestStatus.running,
                                    start_time := some st.clock } }
    | Phase.waitLock =>
        match sp.parallel_group with
        | some g =>
            if g ∈ st.locks then { st with clock := st.clock + 1 }  -- suspended on the lock
            else
              { st with clock := st.clock + 1, locks := g :: st.locks,
                        tasks := st.tasks.set i
                          { ti with phase := Phase.running, status := TestStatus.running,
                                    start_time := some st.clock } }
        | none => { st with clock := st.clock + 1 }  -- unreachable
    | Phase.running =>
        { st with clock := st.clock + 1,
                  semCount := st.semCount + 1,
                  failed := st.failed || !sp.passes,
                  locks :=
                    match sp.parallel_group with
                    | some g => st.locks.filter (fun x => decide (x ≠ g))
                    | none => st.locks,
                  tasks := st.tasks.set i
                    { ti with phase := Phase.done,
                              status := if sp.passes then TestStatus.passed else TestStatus.failed,
                              end_time := some st.clock } }
    | Phase.done => { st with clock := st.clock + 1 }
  | _, _ => { st with clock := st.clock + 1 }

/-- Run a whole schedule. -/
def run (fail_fast : Bool) (suites : List TestSuite) (st : RunnerState)
    (sched : List Nat) : RunnerState :=
  sched.foldl (step fail_fast suites) st

end Prism.PTest

namespace Prism.PLint

/-! ## `tooling/parallel_lint.py` -/

/-- `LintStatus` of parallel_lint.py. -/
inductive LintStatus
  | pending
  | running
  | passed
  | failed
  | skipped
deriving DecidableEq, Repr

/-- One Go module's `golangci-lint` invocation, abstracted to its
observable event: either `create_subprocess_exec` raised, or the process
ran, with `issues` the number of issues decoded from its JSON stdout
(`0` both for a clean run and for undecodable stdout), `runTime` the
seconds until `communicate()` would complete, and the return code —
which the source never reads.  The stderr bookkeeping is omitted: it
only appends text to `category.error` and never affects the status or
the counts. -/
inductive ModuleEvent
  | spawnFail (msg : String)
  | ran (issues : Nat) (runTime : Nat) (returncode : Int)
deriving DecidableEq, Repr

/-- The fields of `LintCategory` that `run_category` writes. -/
structure CategoryOutcome where
  status : LintStatus
  error : Option String
  issues_count : Nat
deriving DecidableEq, Repr

/-- The `for module_dir in go_modules` loop of `run_category`, with
`acc` the issues accumulated so far (`all_issues`).  A module timing out
kills the process and returns immediately with a timeout message; an
exception aborts the loop via the outer `except`; in both cases
`category.issues_count` keeps its dataclass default `0` because it is
assigned only on the success path. -/
def run_category_loop (timeout : Nat) (acc : Nat) :
    List (String × ModuleEvent) → CategoryOutcome
  | [] =>
      { status := if 0 < acc then LintStatus.failed else LintStatus.passed,
        error := none, issues_count := acc }
  | (dir, ev) :: rest =>
      match ev with
      | .spawnFail msg => { status := LintStatus.failed, error := some msg, issues_count := 0 }
      | .ran issues runTime _returncode =>
          if runTime > timeout then
            { status := LintStatus.failed,
              error := some ("Timeout after " ++ toString timeout ++ "s in " ++ dir),
              issues_count := 0 }
          else run_category_loop timeout (acc + issues) rest

/-- `ParallelLintRunner.run_category`: with no Go modules the category is
skipped with a recorded reason; otherwise each module is linted in turn
and the status comes from the accumulated issue count alone.  The
runner's `fail_fast` flag is never consulted here (the source only
prints it). -/
def run_category (timeout : Nat) (modules : List (String × ModuleEvent)) : CategoryOutcome :=
  if modules.isEmpty then
    { status := LintStatus.skipped, error := some "No Go modules found", issues_count := 0 }
  else run_category_loop timeout 0 modules

/-- Issues delivered by one module event. -/
def issuesOf : ModuleEvent → Nat
  | ModuleEvent.ran issues _ _ => issues
  | ModuleEvent.spawnFail _ => 0

/-- Total issues over a module list that runs to completion. -/
def totalIssues (modules : List (String × ModuleEvent)) : Nat :=
  (modules.map (fun m => issuesOf m.2)).sum

/-- Every module event is a natural run finishing within the timeout. -/
def allRanWithin (timeout : Nat) (modules : List (String × ModuleEvent)) : Prop :=
  ∀ m ∈ modules, ∃ issues runTime rc,
    m.2 = ModuleEvent.ran issues runTime rc ∧ runTime ≤ timeout

end Prism.PLint

namespace Prism.PTest

/-! ### Scheduler predicates

Invariants of the reachable states of the `parallel_test.py` scheduler,
used to settle the temporal claims. -/

/-- The skip message of the fail-fast check. -/
def ffMsg : String := "Skipped due to fail-fast"

/-- The skip message naming a dependency that did not pass. -/
def depMsg (dep : String) : String := "Dependency " ++ dep ++ " did not pass"

/-- Registry well-formedness: suite names are pairwise distinct.  The
source never checks this; theorems that need it take it as a
hypothesis. -/
def NamesNodup (suites : List TestSuite) : Prop :=
  (suites.map TestSuite.name).Nodup

instance (suites : List TestSuite) : Decidable (NamesNodup suites) :=
  inferInstanceAs (Decidable ((suites.map TestSuite.name).Nodup))

/-- Group mutual exclusion invariant over the task list and the held
group locks: a running task with a group holds that group's lock, and no
two distinct running tasks share a group. -/
def MutexInvT (suites : List TestSuite) (tasks : List TaskState) (locks : List String) :
    Prop :=
  (∀ i ti sp g, tasks.get? i = some ti → suites.get? i = some sp →
    ti.phase = Phase.running → sp.parallel_group = some g → g ∈ locks) ∧
  (∀ i j ti tj spi spj g, tasks.get? i = some ti → tasks.get? j = some tj →
    suites.get? i = some spi → suites.get? j = some spj →
    ti.phase = Phase.running → tj.phase = Phase.running →
    spi.parallel_group = some g → spj.parallel_group = some g → i = j)

/-- Coherence of a task's phase and its recorded status. -/
def StatusPhaseOK (ti : TaskState) : Prop :=
  match ti.phase with
  | Phase.waitDeps _ => ti.status = TestStatus.pending
  | Phase.checkFF => ti.status = TestStatus.pending
  | Phase.waitSem => ti.status = TestStatus.pending
  | Phase.waitLock => ti.status = TestStatus.pending
  | Phase.running => ti.status = TestStatus.running
  | Phase.done => ti.status = TestStatus.passed ∨ ti.status = TestStatus.failed ∨
      ti.status = TestStatus.skipped

/-- A skipped task carries one of the two skip reasons of `run_suite`:
the fail-fast message (with the flag indeed having tripped), or a
message naming a dependency whose first registry match is finished and
did not pass. -/
def SkipCause (ff : Bool) (suites : List TestSuite) (st : RunnerState) (i : Nat)
    (ti : TaskState) : Prop :=
  (ti.error_message = some ffMsg ∧ ff = true ∧ st.failed = true) ∨
  (∃ sp dep j tj, suites.get? i = some sp ∧ dep ∈ sp.depends_on ∧
    firstIndexOf suites dep = some j ∧ st.tasks.get? j = some tj ∧
    tj.phase = Phase.done ∧ tj.status ≠ TestStatus.passed ∧
    ti.error_message = some (depMsg dep))

/-- For every resolvable dependency of task `i`: it is still to be
processed, or `i` was skipped, or the dependency's first registry match
passed. -/
def DepProcessed (suites : List TestSuite) (st : RunnerState) (i : Nat)
    (ti : TaskState) : Prop :=
  ∀ sp dep j, suites.get? i = some sp → dep ∈ sp.depends_on →
    firstIndexOf suites dep = some j →
    (∃ r, ti.phase = Phase.waitDeps r ∧ dep ∈ r) ∨ ti.status = TestStatus.skipped ∨
    (∃ tj, st.tasks.get? j = some tj ∧ tj.status = TestStatus.passed)

/-- The inductive invariant used for the skip-reason claims. -/
def CauseInv (ff : Bool) (suites : List TestSuite) (st : RunnerState) : Prop :=
  st.tasks.length = suites.length ∧
  (∀ i ti, st.tasks.get? i = some ti → StatusPhaseOK ti) ∧
  (st.failed = true → ∃ j tj, st.tasks.get? j = some tj ∧ tj.status = TestStatus.failed) ∧
  (∀ i ti, st.tasks.get? i = some ti → ti.status = TestStatus.skipped →
    SkipCause ff suites st i ti) ∧
  (∀ i ti, st.tasks.get? i = some ti → DepProcessed suites st i ti) ∧
  (∀ i ti sp r, st.tasks.get? i = some ti → suites.get? i = some sp →
    ti.phase = Phase.waitDeps r → ∀ d ∈ r, d ∈ sp.depends_on)

/-- A finished run skips every task one of whose resolvable dependencies
did not pass: if all tasks are done, a task `i` with a dependency `dep`
whose first registry match `j` did not end `passed` has status
`skipped`. -/
def SkipComplete (suites : List TestSuite) (final : RunnerState) : Prop :=
  (∀ a ta, final.tasks.get? a = some ta → ta.phase = Phase.done) →
  ∀ i ti sp dep j tj, final.tasks.get? i = some ti → suites.get? i = some sp →
    dep ∈ sp.depends_on → firstIndexOf suites dep = some j →
    final.tasks.get? j = some tj → tj.status ≠ TestStatus.passed →
    ti.status = TestStatus.skipped

/-! ### Concrete registries used by the scenario theorems -/

/-- Fail-fast race scenario: suite A fails, suite B is independent. -/
def abSuites : List TestSuite := [{ name := "A", passes := false }, { name := "B" }]

/-- A two-cycle in the dependency graph. -/
def cyclicSuites : List TestSuite :=
  [{ name := "A", depends_on := ["B"] }, { name := "B", depends_on := ["A"] }]

/-- A registry with a duplicate suite name. -/
def dupSuites : List TestSuite := [{ name := "A" }, { name := "A", passes := false }]

/-- A registry whose only suite names an unresolvable dependency. -/
def ghostSuites : List TestSuite := [{ name := "A", depends_on := ["ghost"] }]

/-- Two suites sharing a parallel group. -/
def grpSuites : List TestSuite :=
  [{ name := "A", parallel_group := some "g" }, { name := "B", parallel_group := some "g" }]

/-- Two suites with no group. -/
def freeSuites : List TestSuite := [{ name := "A" }, { name := "B" }]

/-- Dependency-skip scenario: X depends on Y and Y fails. -/
def xySuites : List TestSuite :=
  [{ name := "Y", passes := false }, { name := "X", depends_on := ["Y"] }]

end Prism.PTest

namespace Prism.PAccept

/-! ### Parser predicates and demo inputs -/

/-- The line carries one of the three result markers. -/
def resultMarker (line : String) : Bool :=
  pyContains line "--- PASS:" || pyContains line "--- FAIL:" || pyContains line "--- SKIP:"

/-- The line carries any marker the parser reacts to. -/
def anyMarker (line : String) : Bool := pyContains line "=== RUN" || resultMarker line

/-- The line is a `=== RUN` header whose top-level component registers
backend `b`. -/
def registersBackend (line b : String) : Prop :=
  pyContains line "=== RUN" = true ∧ 2 ≤ (pySplitOn line "/").length ∧
  pyStrip ((pySplitOn line "/").getD 1 "") = b

/-- The line is a top-level result line that records a status for
backend `b` (the exact condition under which `_parse_go_test_output`
overwrites the entry of `b`). -/
def recordsBackend (line b : String) : Prop :=
  pyContains line "=== RUN" = false ∧ resultMarker line = true ∧
  (pySplitOn line "/").length = 2 ∧
  (pySplitWs ((pySplitOn line "/").getD 1 "")).headD "" = b ∧
  ((pySplitWs (pyStrip ((pySplitOn line ":").getD 0 ""))).getLast? = some "PASS" ∨
   (pySplitWs (pyStrip ((pySplitOn line ":").getD 0 ""))).getLast? = some "SKIP" ∨
   (pySplitWs (pyStrip ((pySplitOn line ":").getD 0 ""))).getLast? = some "FAIL")

instance (line b : String) : Decidable (registersBackend line b) :=
  inferInstanceAs (Decidable (pyContains line "=== RUN" = true ∧
    2 ≤ (pySplitOn line "/").length ∧ pyStrip ((pySplitOn line "/").getD 1 "") = b))

instance (line b : String) : Decidable (recordsBackend line b) :=
  inferInstanceAs (Decidable (pyContains line "=== RUN" = false ∧ resultMarker line = true ∧
    (pySplitOn line "/").length = 2 ∧
    (pySplitWs ((pySplitOn line "/").getD 1 "")).headD "" = b ∧
    ((pySplitWs (pyStrip ((pySplitOn line ":").getD 0 ""))).getLast? = some "PASS" ∨
     (pySplitWs (pyStrip ((pySplitOn line ":").getD 0 ""))).getLast? = some "SKIP" ∨
     (pySplitWs (pyStrip ((pySplitOn line ":").getD 0 ""))).getLast? = some "FAIL")))

/-- The go-test output of the docstring example: two backends at nesting
depth one, one of them failing, with a deeper sub-test line. -/
def twoBackendOutput : String :=
  "=== RUN   TestKeyValue\n=== RUN   TestKeyValue/MemStore\n" ++
  "=== RUN   TestKeyValue/MemStore/SetAndGet\n" ++
  "--- PASS: TestKeyValue/MemStore/SetAndGet (0.01s)\n" ++
  "--- PASS: TestKeyValue/MemStore (0.15s)\n" ++
  "=== RUN   TestKeyValue/Redis\n--- FAIL: TestKeyValue/Redis (0.42s)"

/-- Output of a run that announced a backend and then crashed before
reporting any result line. -/
def crashOutput : String := "=== RUN   TestQueue/Redis\npanic: test binary crashed"

/-- Report with one passing and one skipped row for the same backend. -/
def demoC1 : AcceptanceReport :=
  { timestamp := "", duration := 0,
    results := [{ backend := "B", pattern := "P", status := TestStatus.pass, duration := 0 },
                { backend := "B", pattern := "Q", status := TestStatus.skip, duration := 0 }] }

end Prism.PAccept

namespace Prism

/-! ## Theorems -/

/-! ### Claim C2 — per-task timeout enforcement -/

/-- C2: the claim says a command running longer than its timeout is
forcibly terminated — "including a command that produces no output while
running" — and marked failed with a timeout message.  In
`parallel_test.py` the readline loop blocks until stdout EOF before the
timeout is applied, so a suite whose command stays silent for 3600s and
then exits 0 under a 60s timeout is never killed and ends `passed`: the
code contradicts the intended timeout semantics (which
`parallel_lint.py`, wrapping the whole `communicate()` in `wait_for`,
implements as claimed — second conjunct). -/
theorem C2_timeout_not_enforced :
    PTest.execute_suite 60
        (PTest.ProcEvent.runs { eofTime := 3600, exitTime := 3600, returncode := 0 }) =
      { status := PTest.TestStatus.passed, return_code := 0, error_message := none,
        killed := false, elapsed := 3600 } ∧
    PLint.run_category 60 [("pkg/drivers/redis", PLint.ModuleEvent.ran 0 3600 0)] =
      { status := PLint.LintStatus.failed,
        error := some "Timeout after 60s in pkg/drivers/redis", issues_count := 0 } :=
  ⟨rfl, rfl⟩

/-! ### Claim C3 — spawn failures -/

/-- C3 counterexample: in `parallel_test.py` a spawn failure (the
`except Exception` path of `_execute_suite`) yields status `failed`, not
a distinct `errored` status — the `TestStatus` enum of that runner has
no such value. -/
theorem C3_counterexample :
    PTest.execute_suite 300
        (PTest.ProcEvent.spawnFail "[Errno 2] No such file or directory: cargo") =
      { status := PTest.TestStatus.failed, return_code := -1,
        error_message := some "[Errno 2] No such file or directory: cargo",
        killed := false, elapsed := 0 } := rfl

/-- C3 amended: only the acceptance runner gives spawn failures the
distinct status `error` (≠ `fail`), capturing `str(e)`; the test runner
records them as `failed` with return code `-1` and the exception text,
and the lint runner records them as `failed` with the exception text. -/
theorem C3_spawn_failure_status :
    (∀ pat msg dur (ff : Bool),
      PAccept.run_pattern_tests pat ff (PAccept.PatternRunEvent.spawnFail msg) dur =
        Except.ok [{ backend := "All", pattern := pat, status := PAccept.TestStatus.error,
                     duration := dur, error := msg }]) ∧
    PAccept.TestStatus.error ≠ PAccept.TestStatus.fail ∧
    (∀ t msg, PTest.execute_suite t (PTest.ProcEvent.spawnFail msg) =
      { status := PTest.TestStatus.failed, return_code := -1, error_message := some msg,
        killed := false, elapsed := 0 }) ∧
    (∀ t acc dir msg rest,
      PLint.run_category_loop t acc ((dir, PLint.ModuleEvent.spawnFail msg) :: rest) =
        { status := PLint.LintStatus.failed, error := some msg, issues_count := 0 }) :=
  ⟨fun _ _ _ _ => rfl, by decide, fun _ _ => rfl, fun _ _ _ _ _ => rfl⟩

end Prism

namespace Prism

/-! ### Claim C6 — natural exit: status versus return code -/

/-- C6 counterexample: in `parallel_lint.py` a category whose process
exits naturally with return code 1 but delivers no parseable issues is
marked `passed` — the runner derives the status from the accumulated
issue count and never reads the return code, refuting "'failed' for
every non-zero return code". -/
theorem C6_counterexample :
    PLint.run_category 300 [("pkg/plugin", PLint.ModuleEvent.ran 0 1 1)] =
      { status := PLint.LintStatus.passed, error := none, issues_count := 0 } := rfl

/-- The module loop of `run_category` when every module runs within the
timeout: the accumulated issue count decides the status and the return
codes are ignored. -/
theorem lint_loop_all_ran (t : Nat) :
    ∀ (modules : List (String × PLint.ModuleEvent)) (acc : Nat),
      PLint.allRanWithin t modules →
      PLint.run_category_loop t acc modules =
        { status := if 0 < acc + PLint.totalIssues modules then PLint.LintStatus.failed
                    else PLint.LintStatus.passed,
          error := none, issues_count := acc + PLint.totalIssues modules } := by
  intro modules
  induction modules with
  | nil => intro acc _; simp [PLint.run_category_loop, PLint.totalIssues]
  | cons m rest ih =>
      intro acc h
      obtain ⟨issues, runTime, rc, hm, hle⟩ := h m (List.mem_cons_self m rest)
      obtain ⟨dir, ev⟩ := m
      simp only at hm
      subst hm
      rw [PLint.run_category_loop]
      rw [if_neg (by omega)]
      rw [ih (acc + issues) (fun x hx => h x (List.mem_cons_of_mem _ hx))]
      have : acc + issues + PLint.totalIssues rest =
          acc + PLint.totalIssues ((dir, PLint.ModuleEvent.ran issues runTime rc) :: rest) := by
        simp [PLint.totalIssues, PLint.issuesOf]; omega
      rw [this]

/-- C6 amended: on natural exit the test runner derives `passed` exactly
from return code 0; the acceptance runner does the same for its fallback
result when no sub-results parse; but the lint runner ignores the return
code entirely — a category passes exactly when the accumulated issue
count is zero. -/
theorem C6_natural_exit :
    (∀ (t : Nat) (p : PTest.ProcBehavior), p.exitTime - p.eofTime ≤ t →
      ((PTest.execute_suite t (PTest.ProcEvent.runs p)).status = PTest.TestStatus.passed ↔
        p.returncode = 0)) ∧
    (∀ out pat dur (rc : Int), PAccept.parse_go_test_output out pat dur = Except.ok [] →
      PAccept.run_pattern_tests pat false (PAccept.PatternRunEvent.ran out rc) dur =
        Except.ok [{ backend := "All", pattern := pat,
                     status := if rc = 0 then PAccept.TestStatus.pass else PAccept.TestStatus.fail,
                     duration := dur, output := out }]) ∧
    (∀ (t : Nat) modules, modules ≠ [] → PLint.allRanWithin t modules →
      (PLint.run_category t modules).status =
        (if PLint.totalIssues modules = 0 then PLint.LintStatus.passed
         else PLint.LintStatus.failed)) := by
  refine ⟨?_, ?_, ?_⟩
  · intro t p h
    rw [PTest.execute_suite, if_neg (by omega)]
    constructor
    · intro hs
      by_contra hrc
      rw [if_neg hrc] at hs
      simp at hs
    · intro hrc; rw [if_pos hrc]
  · intro out pat dur rc hparse
    rw [PAccept.run_pattern_tests, hparse]
    rfl
  · intro t modules hne h
    rw [PLint.run_category, if_neg (by simpa [List.isEmpty_iff] using hne)]
    rw [lint_loop_all_ran t modules 0 h]
    by_cases h0 : PLint.totalIssues modules = 0
    · simp [h0]
    · have hlt : 0 < 0 + PLint.totalIssues modules := by omega
      simp [h0, hlt]

/-- C6 witness: a process exiting immediately with code 0 within a 60s
timeout is `passed`. -/
theorem C6_witness :
    (3 : Nat) - 3 ≤ 60 ∧
    ((PTest.execute_suite 60 (PTest.ProcEvent.runs
        { eofTime := 3, exitTime := 3, returncode := 0 })).status = PTest.TestStatus.passed ↔
      (0 : Int) = 0) :=
  ⟨by decide, C6_natural_exit.1 60 { eofTime := 3, exitTime := 3, returncode := 0 } (by decide)⟩

end Prism

namespace Prism

/-! ### Claim C1 — compliance score formula -/

/-- C1 counterexample: a backend with one passing and one skipped row.
The source scores it `100 * 1 / 2 = 50` — the denominator is the count
of all non-not_supported rows, skips included — while the claim's
formula `100 * passed / (passed + failed + errored)` gives `100`. -/
theorem C1_counterexample :
    PAccept.backend_score PAccept.demoC1 "B" = 50 ∧
    PAccept.spec_backend_score PAccept.demoC1 "B" = 100 ∧ (50 : ℚ) ≠ 100 := by
  refine ⟨?_, ?_, by norm_num⟩
  · simp [PAccept.backend_score, PAccept.demoC1]
    norm_num
  · simp [PAccept.spec_backend_score, PAccept.demoC1]

/-- The boolean row filter of `backend_score` agrees with the
propositional one of `applicableB`. -/
theorem applicableB_filter (rep : PAccept.AcceptanceReport) (b : String) :
    PAccept.applicableB rep b =
      (rep.results.filter (fun r =>
        decide (r.backend = b) && !decide (r.status = PAccept.TestStatus.not_supported))).length := by
  rw [PAccept.applicableB, List.countP_eq_length_filter]
  congr 1
  apply List.filter_congr
  intro r _
  by_cases h1 : r.backend = b <;>
    by_cases h2 : r.status = PAccept.TestStatus.not_supported <;> simp [h1, h2]

/-- The nested pass filter of `backend_score` counts exactly the rows of
`passedB` (passing rows are never `not_supported`). -/
theorem passedB_filter (rep : PAccept.AcceptanceReport) (b : String) :
    PAccept.passedB rep b =
      ((rep.results.filter (fun r =>
          decide (r.backend = b) && !decide (r.status = PAccept.TestStatus.not_supported))).filter
        (fun r => decide (r.status = PAccept.TestStatus.pass))).length := by
  rw [PAccept.passedB, List.countP_eq_length_filter, List.filter_filter]
  congr 1
  apply List.filter_congr
  intro r _
  by_cases h1 : r.backend = b <;> by_cases h2 : r.status = PAccept.TestStatus.pass <;>
    simp [h1, h2]

/-- Pattern-dimension analogue of `applicableB_filter`. -/
theorem applicableP_filter (rep : PAccept.AcceptanceReport) (p : String) :
    PAccept.applicableP rep p =
      (rep.results.filter (fun r =>
        decide (r.pattern = p) && !decide (r.status = PAccept.TestStatus.not_supported))).length := by
  rw [PAccept.applicableP, List.countP_eq_length_filter]
  congr 1
  apply List.filter_congr
  intro r _
  by_cases h1 : r.pattern = p <;>
    by_cases h2 : r.status = PAccept.TestStatus.not_supported <;> simp [h1, h2]

/-- Pattern-dimension analogue of `passedB_filter`. -/
theorem passedP_filter (rep : PAccept.AcceptanceReport) (p : String) :
    PAccept.passedP rep p =
      ((rep.results.filter (fun r =>
          decide (r.pattern = p) && !decide (r.status = PAccept.TestStatus.not_supported))).filter
        (fun r => decide (r.status = PAccept.TestStatus.pass))).length := by
  rw [PAccept.passedP, List.countP_eq_length_filter, List.filter_filter]
  congr 1
  apply List.filter_congr
  intro r _
  by_cases h1 : r.pattern = p <;> by_cases h2 : r.status = PAccept.TestStatus.pass <;>
    simp [h1, h2]

/-- C1 amended: for both dimensions, the score of a dimension value with
no applicable (non-not_supported) rows is 0, and otherwise it is
`100 * passed / applicable` where the denominator counts every
non-not_supported row — passed, failed, errored *and skipped* alike. -/
theorem C1_score_formula (rep : PAccept.AcceptanceReport) (b p : String) :
    (PAccept.applicableB rep b = 0 → PAccept.backend_score rep b = 0) ∧
    (0 < PAccept.applicableB rep b →
      PAccept.backend_score rep b =
        100 * (PAccept.passedB rep b : ℚ) / (PAccept.applicableB rep b : ℚ)) ∧
    (PAccept.applicableP rep p = 0 → PAccept.pattern_score rep p = 0) ∧
    (0 < PAccept.applicableP rep p →
      PAccept.pattern_score rep p =
        100 * (PAccept.passedP rep p : ℚ) / (PAccept.applicableP rep p : ℚ)) := by
  refine ⟨?_, ?_, ?_, ?_⟩
  · intro h0
    rw [applicableB_filter] at h0
    rw [PAccept.backend_score]
    simp only [List.length_eq_zero] at h0
    simp [h0]
  · intro hpos
    rw [applicableB_filter] at hpos
    rw [PAccept.backend_score, passedB_filter, applicableB_filter]
    have hne : ¬(rep.results.filter (fun r =>
        decide (r.backend = b) && !decide (r.status = PAccept.TestStatus.not_supported))).isEmpty = true := by
      rw [List.isEmpty_iff]
      intro hnil
      rw [hnil] at hpos
      simp at hpos
    rw [if_neg hne]
    field_simp
    ring
  · intro h0
    rw [applicableP_filter] at h0
    rw [PAccept.pattern_score]
    simp only [List.length_eq_zero] at h0
    simp [h0]
  · intro hpos
    rw [applicableP_filter] at hpos
    rw [PAccept.pattern_score, passedP_filter, applicableP_filter]
    have hne : ¬(rep.results.filter (fun r =>
        decide (r.pattern = p) && !decide (r.status = PAccept.TestStatus.not_supported))).isEmpty = true := by
      rw [List.isEmpty_iff]
      intro hnil
      rw [hnil] at hpos
      simp at hpos
    rw [if_neg hne]
    field_simp
    ring

/-- C1 witness: the formula applied to the counterexample report:
one passing row among two applicable rows scores `100 * 1 / 2`. -/
theorem C1_witness :
    0 < PAccept.applicableB PAccept.demoC1 "B" ∧
    PAccept.backend_score PAccept.demoC1 "B" =
      100 * (PAccept.passedB PAccept.demoC1 "B" : ℚ) /
        (PAccept.applicableB PAccept.demoC1 "B" : ℚ) :=
  ⟨by decide, (C1_score_formula PAccept.demoC1 "B" "P").2.1 (by decide)⟩

end Prism

namespace Prism

/-! ### Claim C5 — registry validation and cycles -/

/-- One scheduler step on the cyclic two-suite registry is a no-op apart
from the clock: each task waits forever on the other's completion
event. -/
theorem cyclic_step_noop (ff : Bool) (m c : Nat) (i : Nat) :
    PTest.step ff PTest.cyclicSuites
      { tasks := PTest.cyclicSuites.map PTest.initTask, semCount := m, failed := false,
        locks := [], clock := c } i =
      { tasks := PTest.cyclicSuites.map PTest.initTask, semCount := m, failed := false,
        locks := [], clock := c + 1 } := by
  match i with
  | 0 => rfl
  | 1 => rfl
  | (n + 2) => rfl

/-- Any schedule leaves the cyclic registry in its initial task state. -/
theorem cyclic_run_noop (ff : Bool) (m : Nat) :
    ∀ (sched : List Nat) (c : Nat),
      PTest.run ff PTest.cyclicSuites
        { tasks := PTest.cyclicSuites.map PTest.initTask, semCount := m, failed := false,
          locks := [], clock := c } sched =
      { tasks := PTest.cyclicSuites.map PTest.initTask, semCount := m, failed := false,
        locks := [], clock := c + sched.length } := by
  intro sched
  induction sched with
  | nil => intro c; simp [PTest.run]
  | cons i rest ih =>
      intro c
      show PTest.run ff PTest.cyclicSuites
        (PTest.step ff PTest.cyclicSuites _ i) rest = _
      rw [cyclic_step_noop, ih (c + 1)]
      congr 1
      simp
      omega

/-- C5 counterexample: the claimed load-time abort does not exist.
Loading the cyclic registry succeeds (`initState` — the translation of
`ParallelTestRunner.__init__` — performs no validation), and after
twelve scheduler steps of fair alternation both tasks are still
`pending` with no start time: the run neither aborts with an error nor
executes anything; it hangs. -/
theorem C5_counterexample :
    (PTest.run true PTest.cyclicSuites (PTest.initState PTest.cyclicSuites 8)
        [0, 1, 0, 1, 0, 1, 0, 1, 0, 1, 0, 1]).tasks.map
      (fun t => (t.status, t.start_time)) =
      [(PTest.TestStatus.pending, none), (PTest.TestStatus.pending, none)] := by decide

/-- C5 amended: no configuration validation is performed anywhere.  A
dependency cycle is never detected: under every schedule the cyclic
registry's tasks remain untouched (so the run waits forever instead of
aborting).  A duplicate suite name is accepted at load.  An unresolvable
dependency name is silently ignored at wait time and its task runs
normally. -/
theorem C5_no_validation :
    (∀ (ff : Bool) (m : Nat) (sched : List Nat),
      (PTest.run ff PTest.cyclicSuites (PTest.initState PTest.cyclicSuites m) sched).tasks =
        (PTest.initState PTest.cyclicSuites m).tasks) ∧
    (PTest.initState PTest.dupSuites 4).tasks.map (fun t => t.status) =
      [PTest.TestStatus.pending, PTest.TestStatus.pending] ∧
    (PTest.run false PTest.ghostSuites (PTest.initState PTest.ghostSuites 8)
        [0, 0, 0, 0, 0]).tasks.map (fun t => t.status) = [PTest.TestStatus.passed] := by
  refine ⟨?_, by decide, by decide⟩
  intro ff m sched
  have h := cyclic_run_noop ff m sched 0
  rw [PTest.initState]
  show (PTest.run ff PTest.cyclicSuites
    { tasks := PTest.cyclicSuites.map PTest.initTask, semCount := m, failed := false,
      locks := [], clock := 0 } sched).tasks = _
  rw [h]

end Prism

namespace Prism

/-! ### Parser lemmas shared by claims C8 and C10 -/

/-- `dictSet` at another key neither adds nor removes `(b, val)`. -/
theorem dictSet_mem_of_ne (d : List (String × PAccept.BackendEntry)) (k : String)
    (v : PAccept.BackendEntry) (b : String) (val : PAccept.BackendEntry) (hne : b ≠ k) :
    ((b, val) ∈ PAccept.dictSet d k v ↔ (b, val) ∈ d) := by
  rw [PAccept.dictSet]
  split
  · constructor
    · intro hmem
      obtain ⟨e, he, hfe⟩ := List.mem_map.mp hmem
      by_cases hek : e.1 = k
      · rw [if_pos hek] at hfe
        exact absurd (congrArg Prod.fst hfe).symm hne
      · rw [if_neg hek] at hfe
        rw [← hfe]; exact he
    · intro hmem
      refine List.mem_map.mpr ⟨(b, val), hmem, ?_⟩
      rw [if_neg (by simpa using hne)]
  · constructor
    · intro hmem
      rcases List.mem_append.mp hmem with h | h
      · exact h
      · simp at h
        exact absurd h.1 hne
    · intro hmem; exact List.mem_append.mpr (Or.inl hmem)

/-- `dictContains` is unchanged by `dictSet` at another key. -/
theorem dictSet_contains_of_ne (d : List (String × PAccept.BackendEntry)) (k : String)
    (v : PAccept.BackendEntry) (b : String) (hne : b ≠ k) :
    PAccept.dictContains (PAccept.dictSet d k v) b = PAccept.dictContains d b := by
  rw [PAccept.dictSet]
  split
  · rw [PAccept.dictContains, PAccept.dictContains, List.any_map]
    congr 1
    funext e
    by_cases hek : e.1 = k
    · simp only [Function.comp_apply, if_pos hek, hek]
      simp [Ne.symm hne]
    · simp [Function.comp, hek]
  · rw [PAccept.dictContains, PAccept.dictContains, List.any_append]
    simp [Ne.symm hne]

/-- `dictContains` never decreases along `dictSet`. -/
theorem dictSet_contains_mono (d : List (String × PAccept.BackendEntry)) (k : String)
    (v : PAccept.BackendEntry) (b : String) (h : PAccept.dictContains d b = true) :
    PAccept.dictContains (PAccept.dictSet d k v) b = true := by
  by_cases hbk : b = k
  · subst hbk
    rw [PAccept.dictSet, if_pos h]
    rw [PAccept.dictContains] at h ⊢
    obtain ⟨e, he, hei⟩ := List.any_eq_true.mp h
    refine List.any_eq_true.mpr ⟨(b, v), List.mem_map.mpr ⟨e, he, ?_⟩, by simp⟩
    rw [if_pos (by simpa using hei)]
  · rw [dictSet_contains_of_ne d k v b hbk]
    exact h

/-- Behaviour of one parser line step, by cases on the line: it raises,
leaves the dict unchanged, appends a newly discovered backend with the
default entry `(pass, 0)`, or records a result for the backend of a
top-level result line. -/
theorem parseGoLine_shape (line : String) (d : List (String × PAccept.BackendEntry)) :
    (PAccept.parseGoLine (Except.ok d) line = Except.error () ∧
      pyContains line "=== RUN" = false ∧ PAccept.resultMarker line = true ∧
      (pySplitWs ((pySplitOn line "/").getD 1 "") = [] ∨
        (pySplitWs (pyStrip ((pySplitOn line ":").getD 0 ""))).getLast? = none)) ∨
    PAccept.parseGoLine (Except.ok d) line = Except.ok d ∨
    (∃ k, PAccept.registersBackend line k ∧ PAccept.dictContains d k = false ∧
      PAccept.parseGoLine (Except.ok d) line =
        Except.ok (d ++ [(k, (PAccept.TestStatus.pass, 0))])) ∨
    (∃ k v, PAccept.recordsBackend line k ∧
      PAccept.parseGoLine (Except.ok d) line = Except.ok (PAccept.dictSet d k v)) := by
  rw [PAccept.parseGoLine]
  by_cases hrun : pyContains line "=== RUN"
  · rw [if_pos hrun]
    by_cases hlen : 2 ≤ (pySplitOn line "/").length
    · rw [if_pos hlen]
      by_cases hc : PAccept.dictContains d (pyStrip ((pySplitOn line "/").getD 1 ""))
      · rw [if_pos hc]
        exact Or.inr (Or.inl rfl)
      · rw [if_neg hc]
        exact Or.inr (Or.inr (Or.inl ⟨pyStrip ((pySplitOn line "/").getD 1 ""),
          ⟨hrun, hlen, rfl⟩, by simpa using hc, rfl⟩))
    · rw [if_neg hlen]
      exact Or.inr (Or.inl rfl)
  · rw [if_neg hrun]
    by_cases hmark : (pyContains line "--- PASS:" || pyContains line "--- FAIL:" ||
        pyContains line "--- SKIP:") = true
    · rw [if_pos hmark]
      by_cases hlen : 2 ≤ (pySplitOn line "/").length
      · rw [if_pos hlen]
        rcases hsplit : pySplitWs ((pySplitOn line "/").getD 1 "") with _ | ⟨bk, tl⟩
        · exact Or.inl ⟨rfl, by simpa using hrun, hmark, Or.inl rfl⟩
        · rcases hlast : (pySplitWs (pyStrip ((pySplitOn line ":").getD 0 ""))).getLast?
            with _ | s
          · exact Or.inl ⟨rfl, by simpa using hrun, hmark, Or.inr rfl⟩
          · dsimp only
            by_cases h2 : (pySplitOn line "/").length = 2
            · rw [if_pos h2]
              by_cases hp : s = "PASS"
              · subst hp
                rw [if_pos rfl]
                refine Or.inr (Or.inr (Or.inr ⟨bk, _, ⟨by simpa using hrun, hmark, h2,
                  by rw [hsplit]; rfl, Or.inl hlast⟩, rfl⟩))
              · rw [if_neg hp]
                by_cases hf : s = "FAIL"
                · subst hf
                  rw [if_pos rfl]
                  refine Or.inr (Or.inr (Or.inr ⟨bk, _, ⟨by simpa using hrun, hmark, h2,
                    by rw [hsplit]; rfl, Or.inr (Or.inr hlast)⟩, rfl⟩))
                · rw [if_neg hf]
                  by_cases hs : s = "SKIP"
                  · subst hs
                    rw [if_pos rfl]
                    refine Or.inr (Or.inr (Or.inr ⟨bk, _, ⟨by simpa using hrun, hmark, h2,
                      by rw [hsplit]; rfl, Or.inr (Or.inl hlast)⟩, rfl⟩))
                  · rw [if_neg hs]
                    exact Or.inr (Or.inl rfl)
            · rw [if_neg h2]
              exact Or.inr (Or.inl rfl)
      · rw [if_neg hlen]
        exact Or.inr (Or.inl rfl)
    · rw [if_neg (by simpa using hmark)]
      exact Or.inr (Or.inl rfl)
end Prism

namespace Prism

/-- A result line nested deeper than one separator (and well-formed
enough not to raise) is ignored by the parser: processing it changes
nothing. -/
theorem parseGoLine_deep_noop (line : String)
    (h1 : pyContains line "=== RUN" = false)
    (_h2 : PAccept.resultMarker line = true)
    (h3 : 3 ≤ (pySplitOn line "/").length)
    (h4 : pySplitWs ((pySplitOn line "/").getD 1 "") ≠ [])
    (h5 : (pySplitWs (pyStrip ((pySplitOn line ":").getD 0 ""))).getLast? ≠ none) :
    ∀ st, PAccept.parseGoLine st line = st := by
  intro st
  match st with
  | .error e => rfl
  | .ok d =>
    rcases parseGoLine_shape line d with ⟨_, _, _, hdeg⟩ | h | ⟨k, hreg, _, _⟩ | ⟨k, v, hrec, _⟩
    · rcases hdeg with hd | hd
      · exact absurd hd h4
      · exact absurd hd h5
    · exact h
    · exact absurd hreg.1 (by simp [h1])
    · have := hrec.2.2.1
      omega

/-- A line with no recognizable marker is a no-op for the parser. -/
theorem parseGoLine_nomarker (line : String) (h : PAccept.anyMarker line = false) :
    ∀ st, PAccept.parseGoLine st line = st := by
  have h' := h
  rw [PAccept.anyMarker, Bool.or_eq_false_iff] at h'
  obtain ⟨hrun, hmark⟩ := h'
  intro st
  match st with
  | .error e => rfl
  | .ok d =>
    rcases parseGoLine_shape line d with ⟨_, _, hm, _⟩ | h2 | ⟨k, hreg, _, _⟩ | ⟨k, v, hrec, _⟩
    · exact absurd hm (by simp [hmark])
    · exact h2
    · exact absurd hreg.1 (by simp [hrun])
    · exact absurd hrec.2.1 (by simp [hmark])

/-- A raised `IndexError` is final: the fold stays in the error state. -/
theorem foldl_parseGoLine_error (l : List String) (e : Unit) :
    l.foldl PAccept.parseGoLine (Except.error e) = Except.error e := by
  induction l with
  | nil => rfl
  | cons x xs ih => rw [List.foldl_cons]; exact ih

/-- Push a property of the parser dict through a successful fold. -/
theorem foldl_ok_chain (Q : List (String × PAccept.BackendEntry) → Prop) :
    ∀ (l : List String),
      (∀ line ∈ l, ∀ d d2, PAccept.parseGoLine (Except.ok d) line = Except.ok d2 →
        Q d → Q d2) →
      ∀ d dF, l.foldl PAccept.parseGoLine (Except.ok d) = Except.ok dF → Q d → Q dF := by
  intro l
  induction l with
  | nil =>
      intro _ d dF h hq
      rw [List.foldl_nil] at h
      cases h
      exact hq
  | cons x xs ih =>
      intro hstep d dF h hq
      rw [List.foldl_cons] at h
      rcases he : PAccept.parseGoLine (Except.ok d) x with e | d1
      · rw [he, foldl_parseGoLine_error] at h
        cases h
      · rw [he] at h
        exact ih (fun line hl => hstep line (List.mem_cons_of_mem _ hl)) d1 dF h
          (hstep x (List.mem_cons_self _ _) d d1 he hq)

/-- Folding lines with no recognizable markers leaves the parser state
untouched. -/
theorem parseLines_nomarker_aux (lines : List String)
    (h : ∀ L ∈ lines, PAccept.anyMarker L = false) :
    ∀ st, lines.foldl PAccept.parseGoLine st = st := by
  induction lines with
  | nil => intro st; rfl
  | cons x xs ih =>
      intro st
      rw [List.foldl_cons, parseGoLine_nomarker x (h x (List.mem_cons_self _ _)) st]
      exact ih (fun L hL => h L (List.mem_cons_of_mem _ hL)) st

end Prism

namespace Prism

/-! ### Claim C8 — promotion of top-level sub-check lines -/

set_option maxRecDepth 4000 in
/-- C8: (1) inserting a well-formed result line nested deeper than one
separator anywhere in the output does not change the parse at all; (2)
the docstring example — two top-level result lines for `MemStore` and
`Redis` at the same depth, plus deeper detail lines — yields exactly two
SubResults with those statuses; (3) output in which no line carries any
recognizable marker parses to zero SubResults, and (4) the runner then
falls back to exactly one wildcard "All" SubResult whose status is the
parent outcome derived from the return code. -/
theorem C8_parser_promotion :
    (∀ (pre suf : List String) (line : String),
      pyContains line "=== RUN" = false → PAccept.resultMarker line = true →
      3 ≤ (pySplitOn line "/").length →
      pySplitWs ((pySplitOn line "/").getD 1 "") ≠ [] →
      (pySplitWs (pyStrip ((pySplitOn line ":").getD 0 ""))).getLast? ≠ none →
      PAccept.parseLines (pre ++ line :: suf) = PAccept.parseLines (pre ++ suf)) ∧
    ((PAccept.parse_go_test_output PAccept.twoBackendOutput "KeyValue" 1).map
        (fun rs => rs.map (fun r => (r.backend, r.status))) =
      Except.ok [("MemStore", PAccept.TestStatus.pass), ("Redis", PAccept.TestStatus.fail)]) ∧
    (∀ lines, (∀ L ∈ lines, PAccept.anyMarker L = false) →
      PAccept.parseLines lines = Except.ok []) ∧
    (∀ out pat dur (rc : Int), PAccept.parse_go_test_output out pat dur = Except.ok [] →
      PAccept.run_pattern_tests pat false (PAccept.PatternRunEvent.ran out rc) dur =
        Except.ok [{ backend := "All", pattern := pat,
                     status := if rc = 0 then PAccept.TestStatus.pass
                               else PAccept.TestStatus.fail,
                     duration := dur, output := out }]) := by
  refine ⟨?_, by decide, ?_, ?_⟩
  · intro pre suf line h1 h2 h3 h4 h5
    rw [PAccept.parseLines, PAccept.parseLines, List.foldl_append, List.foldl_append,
      List.foldl_cons, parseGoLine_deep_noop line h1 h2 h3 h4 h5]
  · intro lines h
    rw [PAccept.parseLines, parseLines_nomarker_aux lines h]
  · intro out pat dur rc hp
    rw [PAccept.run_pattern_tests, hp]
    rfl

/-- C8 witness: inserting the deeper-nested line
`--- PASS: TestX/B/Sub (0.01s)` between a RUN header and a top-level
result line leaves the parse unchanged. -/
theorem C8_witness :
    PAccept.parseLines
        (["=== RUN   TestX/B"] ++ "--- PASS: TestX/B/Sub (0.01s)" ::
          ["--- PASS: TestX/B (0.10s)"]) =
      PAccept.parseLines (["=== RUN   TestX/B"] ++ ["--- PASS: TestX/B (0.10s)"]) :=
  C8_parser_promotion.1 ["=== RUN   TestX/B"] ["--- PASS: TestX/B (0.10s)"]
    "--- PASS: TestX/B/Sub (0.01s)" (by decide) (by decide) (by decide) (by decide) (by decide)

end Prism

namespace Prism

/-! ### Claim C10 — default PASS for backends with no result line -/

/-- Lines that do not record backend `b` preserve its default entry:
if `b` is in the dict then its entry is `(pass, 0)`. -/
theorem entry_default_step (b line : String) (hnr : ¬PAccept.recordsBackend line b)
    (d d2 : List (String × PAccept.BackendEntry))
    (heq : PAccept.parseGoLine (Except.ok d) line = Except.ok d2)
    (hP : PAccept.dictContains d b = true → (b, (PAccept.TestStatus.pass, (0 : ℚ))) ∈ d) :
    PAccept.dictContains d2 b = true → (b, (PAccept.TestStatus.pass, (0 : ℚ))) ∈ d2 := by
  rcases parseGoLine_shape line d with ⟨he, _⟩ | h | ⟨k, _, _, h3⟩ | ⟨k, v, hrec, h4⟩
  · rw [he] at heq; cases heq
  · rw [h] at heq; cases heq; exact hP
  · rw [h3] at heq
    cases heq
    intro hc
    by_cases hbk : b = k
    · subst hbk
      exact List.mem_append.mpr (Or.inr (by simp))
    · have hcd : PAccept.dictContains d b = true := by
        rw [PAccept.dictContains] at hc ⊢
        rcases List.any_eq_true.mp hc with ⟨e, he2, hee⟩
        rcases List.mem_append.mp he2 with hin | hin
        · exact List.any_eq_true.mpr ⟨e, hin, hee⟩
        · simp at hin
          rw [hin] at hee
          simp at hee
          exact absurd hee.symm hbk
      exact List.mem_append.mpr (Or.inl (hP hcd))
  · have hkb : b ≠ k := fun hbk => hnr (hbk ▸ hrec)
    rw [h4] at heq
    cases heq
    intro hc
    rw [dictSet_contains_of_ne d k v b hkb] at hc
    exact (dictSet_mem_of_ne d k v b _ hkb).mpr (hP hc)

/-- Once a backend is in the dict, it stays in it. -/
theorem contains_mono_step (b line : String) (d d2 : List (String × PAccept.BackendEntry))
    (heq : PAccept.parseGoLine (Except.ok d) line = Except.ok d2)
    (hc : PAccept.dictContains d b = true) : PAccept.dictContains d2 b = true := by
  rcases parseGoLine_shape line d with ⟨he, _⟩ | h | ⟨k, _, _, h3⟩ | ⟨k, v, _, h4⟩
  · rw [he] at heq; cases heq
  · rw [h] at heq; cases heq; exact hc
  · rw [h3] at heq
    cases heq
    rw [PAccept.dictContains] at hc ⊢
    rcases List.any_eq_true.mp hc with ⟨e, he2, hee⟩
    exact List.any_eq_true.mpr ⟨e, List.mem_append.mpr (Or.inl he2), hee⟩
  · rw [h4] at heq
    cases heq
    exact dictSet_contains_mono d k v b hc

/-- A `=== RUN` header line discovers its backend: afterwards the
backend is in the dict, with the default entry when it is new. -/
theorem registers_step (b line : String) (hreg : PAccept.registersBackend line b)
    (d : List (String × PAccept.BackendEntry)) :
    ∃ d2, PAccept.parseGoLine (Except.ok d) line = Except.ok d2 ∧
      PAccept.dictContains d2 b = true ∧
      (PAccept.dictContains d b = false → d2 = d ++ [(b, (PAccept.TestStatus.pass, 0))]) := by
  obtain ⟨h1, h2, h3⟩ := hreg
  rw [PAccept.parseGoLine, if_pos h1, if_pos h2, h3]
  by_cases hc : PAccept.dictContains d b
  · refine ⟨d, by rw [if_pos hc], hc, ?_⟩
    intro hfalse
    rw [hc] at hfalse
    cases hfalse
  · refine ⟨d ++ [(b, (PAccept.TestStatus.pass, 0))], by rw [if_neg hc], ?_, fun _ => rfl⟩
    rw [PAccept.dictContains]
    exact List.any_eq_true.mpr ⟨(b, (PAccept.TestStatus.pass, 0)),
      List.mem_append.mpr (Or.inr (by simp)), by simp⟩

/-- C10: a backend named in a `=== RUN` header with no top-level result
line anywhere in the output is emitted as a SubResult with the default
status `pass` and duration `0` that were assigned at discovery — a
sub-check that starts and never reports (e.g. the test binary crashed)
counts as passed. -/
theorem C10_default_pass_emitted (out pat : String) (dur : ℚ) (b : String)
    (res : List PAccept.TestResult)
    (hreg : ∃ L ∈ pySplitOn out "\n", PAccept.registersBackend L b)
    (hnorec : ∀ L ∈ pySplitOn out "\n", ¬PAccept.recordsBackend L b)
    (hok : PAccept.parse_go_test_output out pat dur = Except.ok res) :
    { backend := b, pattern := pat, status := PAccept.TestStatus.pass, duration := 0,
      output := out } ∈ res := by
  rw [PAccept.parse_go_test_output] at hok
  rcases hpl : PAccept.parseLines (pySplitOn out "\n") with e | dF
  · rw [hpl] at hok; cases hok
  · rw [hpl] at hok
    cases hok
    obtain ⟨L, hLmem, hLreg⟩ := hreg
    obtain ⟨l1, l2, hsplit⟩ := List.append_of_mem hLmem
    rw [PAccept.parseLines, hsplit, List.foldl_append, List.foldl_cons] at hpl
    rcases h1 : l1.foldl PAccept.parseGoLine (Except.ok []) with e1 | d1
    · rw [h1] at hpl
      have herr : PAccept.parseGoLine (Except.error e1) L = Except.error e1 := rfl
      rw [herr, foldl_parseGoLine_error] at hpl
      cases hpl
    · rw [h1] at hpl
      have hmem1 : ∀ line ∈ l1, line ∈ pySplitOn out "\n" := by
        intro line hl
        rw [hsplit]
        exact List.mem_append.mpr (Or.inl hl)
      have hmemL : L ∈ pySplitOn out "\n" := by
        rw [hsplit]
        exact List.mem_append.mpr (Or.inr (List.mem_cons_self _ _))
      have hmem2 : ∀ line ∈ l2, line ∈ pySplitOn out "\n" := by
        intro line hl
        rw [hsplit]
        exact List.mem_append.mpr (Or.inr (List.mem_cons_of_mem _ hl))
      have hP1 : PAccept.dictContains d1 b = true →
          (b, (PAccept.TestStatus.pass, (0 : ℚ))) ∈ d1 := by
        refine foldl_ok_chain
          (fun d => PAccept.dictContains d b = true →
            (b, (PAccept.TestStatus.pass, (0 : ℚ))) ∈ d) l1 ?_ [] d1 h1 ?_
        · intro line hl d d2 heq hq
          exact entry_default_step b line (hnorec line (hmem1 line hl)) d d2 heq hq
        · intro hc
          rw [PAccept.dictContains] at hc
          simp at hc
      obtain ⟨d2, heq2, hc2, _⟩ := registers_step b L hLreg d1
      rw [heq2] at hpl
      have hP2 : PAccept.dictContains d2 b = true →
          (b, (PAccept.TestStatus.pass, (0 : ℚ))) ∈ d2 :=
        entry_default_step b L (hnorec L hmemL) d1 d2 heq2 hP1
      have hQ : PAccept.dictContains dF b = true ∧
          (b, (PAccept.TestStatus.pass, (0 : ℚ))) ∈ dF := by
        refine foldl_ok_chain
          (fun d => PAccept.dictContains d b = true ∧
            (b, (PAccept.TestStatus.pass, (0 : ℚ))) ∈ d) l2 ?_ d2 dF hpl ⟨hc2, hP2 hc2⟩
        intro line hl d d2x heq hq
        obtain ⟨hcq, hmq⟩ := hq
        have hcd2 := contains_mono_step b line d d2x heq hcq
        exact ⟨hcd2, entry_default_step b line (hnorec line (hmem2 line hl)) d d2x heq
          (fun _ => hmq) hcd2⟩
      exact List.mem_map.mpr ⟨(b, (PAccept.TestStatus.pass, (0 : ℚ))), hQ.2, rfl⟩

/-- C10 witness: the crash output announces `Redis` via `=== RUN` and
never reports a result; the parsed SubResult is `pass` with duration
`0`. -/
theorem C10_witness :
    { backend := "Redis", pattern := "Queue", status := PAccept.TestStatus.pass,
      duration := 0, output := PAccept.crashOutput } ∈
      [{ backend := "Redis", pattern := "Queue", status := PAccept.TestStatus.pass,
         duration := 0, output := PAccept.crashOutput : PAccept.TestResult }] :=
  C10_default_pass_emitted PAccept.crashOutput "Queue" 3 "Redis" _
    ⟨"=== RUN   TestQueue/Redis", by decide, by decide⟩ (by decide) (by decide)

end Prism

namespace Prism.PTest

/-! ### Generic scheduler step lemmas -/

/-- A step changes at most the stepped task's entry. -/
theorem step_tasks_shape (ff : Bool) (suites : List TestSuite) (st : RunnerState) (k : Nat) :
    (step ff suites st k).tasks = st.tasks ∨
    ∃ x, (step ff suites st k).tasks = st.tasks.set k x := by
  rw [step]
  repeat' split
  all_goals first
    | exact Or.inl rfl
    | exact Or.inr ⟨_, rfl⟩

/-- Other tasks' entries are untouched by a step. -/
theorem step_tasks_other (ff : Bool) (suites : List TestSuite) (st : RunnerState)
    (k i : Nat) (hne : i ≠ k) :
    (step ff suites st k).tasks.get? i = st.tasks.get? i := by
  rcases step_tasks_shape ff suites st k with h | ⟨x, h⟩
  · rw [h]
  · rw [h, List.get?_set_ne _ _ (fun he => hne he.symm)]

/-- A finished task's entry never changes again (single step). -/
theorem step_done_frozen (ff : Bool) (suites : List TestSuite) (st : RunnerState)
    (k i : Nat) (ti : TaskState) (hget : st.tasks.get? i = some ti)
    (hdone : ti.phase = Phase.done) :
    (step ff suites st k).tasks.get? i = some ti := by
  by_cases hik : i = k
  · subst hik
    rcases hs : suites.get? i with _ | sp
    · rw [step, hget, hs]
      exact hget
    · rw [step, hget, hs]
      dsimp only
      rw [hdone]
      exact hget
  · rw [step_tasks_other ff suites st k i hik]
    exact hget

/-- A finished task's entry never changes again (whole schedule). -/
theorem run_done_frozen (ff : Bool) (suites : List TestSuite) :
    ∀ (sched : List Nat) (st : RunnerState) (i : Nat) (ti : TaskState),
      st.tasks.get? i = some ti → ti.phase = Phase.done →
      (run ff suites st sched).tasks.get? i = some ti := by
  intro sched
  induction sched with
  | nil => intro st i ti hget _; exact hget
  | cons k rest ih =>
      intro st i ti hget hdone
      exact ih (step ff suites st k) i ti (step_done_frozen ff suites st k i ti hget hdone)
        hdone

/-- The failed flag is monotone. -/
theorem step_failed_mono (ff : Bool) (suites : List TestSuite) (st : RunnerState) (k : Nat)
    (h : st.failed = true) : (step ff suites st k).failed = true := by
  rw [step]
  repeat' split
  all_goals simp [h]

end Prism.PTest

namespace Prism.PTest

/-! ### Group mutual exclusion invariant -/

/-- Analysis of `get?` after `set`. -/
theorem get?_set_cases (l : List TaskState) (k i : Nat) (a ti : TaskState)
    (h : (l.set k a).get? i = some ti) :
    (i = k ∧ ti = a) ∨ (i ≠ k ∧ l.get? i = some ti) := by
  by_cases hik : i = k
  · subst hik
    rw [List.get?_set, if_pos rfl] at h
    rcases hl : l.get? i with _ | b
    · rw [hl] at h; cases h
    · rw [hl] at h
      simp at h
      exact Or.inl ⟨rfl, h.symm⟩
  · rw [List.get?_set, if_neg (fun he => hik he.symm)] at h
    exact Or.inr ⟨hik, h⟩

/-- Updating a task to a non-running phase preserves the invariant. -/
theorem mutexT_set_nonrunning (suites : List TestSuite) (tasks : List TaskState)
    (locks : List String) (k : Nat) (a : TaskState)
    (h : MutexInvT suites tasks locks) (ha : a.phase ≠ Phase.running) :
    MutexInvT suites (tasks.set k a) locks := by
  constructor
  · intro i ti sp g hget hsp hrun hg
    rcases get?_set_cases tasks k i a ti hget with ⟨_, rfl⟩ | ⟨_, hold⟩
    · exact absurd hrun ha
    · exact h.1 i ti sp g hold hsp hrun hg
  · intro i j ti tj spi spj g hgi hgj hspi hspj hri hrj hgri hgrj
    rcases get?_set_cases tasks k i a ti hgi with ⟨_, rfl⟩ | ⟨_, holdi⟩
    · exact absurd hri ha
    rcases get?_set_cases tasks k j a tj hgj with ⟨_, rfl⟩ | ⟨_, holdj⟩
    · exact absurd hrj ha
    exact h.2 i j ti tj spi spj g holdi holdj hspi hspj hri hrj hgri hgrj

/-- A groupless task may enter any phase without touching the locks. -/
theorem mutexT_set_groupless (suites : List TestSuite) (tasks : List TaskState)
    (locks : List String) (k : Nat) (a : TaskState) (sp : TestSuite)
    (h : MutexInvT suites tasks locks) (hsp : suites.get? k = some sp)
    (hg : sp.parallel_group = none) :
    MutexInvT suites (tasks.set k a) locks := by
  constructor
  · intro i ti spi g hget hspi hrun hgr
    rcases get?_set_cases tasks k i a ti hget with ⟨rfl, rfl⟩ | ⟨_, hold⟩
    · rw [hsp] at hspi
      cases hspi
      rw [hg] at hgr
      cases hgr
    · exact h.1 i ti spi g hold hspi hrun hgr
  · intro i j ti tj spi spj g hgi hgj hspi hspj hri hrj hgri hgrj
    rcases get?_set_cases tasks k i a ti hgi with ⟨rfl, rfl⟩ | ⟨_, holdi⟩
    · rw [hsp] at hspi
      cases hspi
      rw [hg] at hgri
      cases hgri
    rcases get?_set_cases tasks k j a tj hgj with ⟨rfl, rfl⟩ | ⟨_, holdj⟩
    · rw [hsp] at hspj
      cases hspj
      rw [hg] at hgrj
      cases hgrj
    exact h.2 i j ti tj spi spj g holdi holdj hspi hspj hri hrj hgri hgrj

/-- Acquiring a free group lock and starting to run preserves the
invariant. -/
theorem mutexT_acquire (suites : List TestSuite) (tasks : List TaskState)
    (locks : List String) (k : Nat) (a : TaskState) (sp : TestSuite) (g0 : String)
    (h : MutexInvT suites tasks locks) (hsp : suites.get? k = some sp)
    (hg : sp.parallel_group = some g0) (hfree : g0 ∉ locks) :
    MutexInvT suites (tasks.set k a) (g0 :: locks) := by
  constructor
  · intro i ti spi g hget hspi hrun hgr
    rcases get?_set_cases tasks k i a ti hget with ⟨rfl, rfl⟩ | ⟨_, hold⟩
    · rw [hsp] at hspi
      cases hspi
      rw [hg] at hgr
      cases hgr
      exact List.mem_cons_self _ _
    · exact List.mem_cons_of_mem _ (h.1 i ti spi g hold hspi hrun hgr)
  · intro i j ti tj spi spj g hgi hgj hspi hspj hri hrj hgri hgrj
    rcases get?_set_cases tasks k i a ti hgi with ⟨rfl, rfl⟩ | ⟨hik, holdi⟩
    · rcases get?_set_cases tasks i j ti tj hgj with ⟨rfl, rfl⟩ | ⟨hjk, holdj⟩
      · rfl
      · rw [hsp] at hspi
        cases hspi
        rw [hg] at hgri
        cases hgri
        exact absurd (h.1 j tj spj g0 holdj hspj hrj hgrj) hfree
    · rcases get?_set_cases tasks k j a tj hgj with ⟨rfl, rfl⟩ | ⟨hjk, holdj⟩
      · rw [hsp] at hspj
        cases hspj
        rw [hg] at hgrj
        cases hgrj
        exact absurd (h.1 i ti spi g0 holdi hspi hri hgri) hfree
      · exact h.2 i j ti tj spi spj g holdi holdj hspi hspj hri hrj hgri hgrj

/-- Finishing a running grouped task and releasing its lock preserves
the invariant. -/
theorem mutexT_release (suites : List TestSuite) (tasks : List TaskState)
    (locks : List String) (k : Nat) (tiOld a : TaskState) (sp : TestSuite) (g0 : String)
    (h : MutexInvT suites tasks locks) (hold : tasks.get? k = some tiOld)
    (holdrun : tiOld.phase = Phase.running) (hsp : suites.get? k = some sp)
    (hg : sp.parallel_group = some g0) (ha : a.phase ≠ Phase.running) :
    MutexInvT suites (tasks.set k a) (locks.filter (fun x => decide (x ≠ g0))) := by
  constructor
  · intro i ti spi g hget hspi hrun hgr
    rcases get?_set_cases tasks k i a ti hget with ⟨_, rfl⟩ | ⟨hik, holdi⟩
    · exact absurd hrun ha
    · have hmem := h.1 i ti spi g holdi hspi hrun hgr
      refine List.mem_filter.mpr ⟨hmem, ?_⟩
      simp only [decide_eq_true_eq]
      intro hgg0
      subst hgg0
      exact hik (h.2 i k ti tiOld spi sp g holdi hold hspi hsp hrun holdrun hgr hg)
  · intro i j ti tj spi spj g hgi hgj hspi hspj hri hrj hgri hgrj
    rcases get?_set_cases tasks k i a ti hgi with ⟨_, rfl⟩ | ⟨_, holdi⟩
    · exact absurd hri ha
    rcases get?_set_cases tasks k j a tj hgj with ⟨_, rfl⟩ | ⟨_, holdj⟩
    · exact absurd hrj ha
    exact h.2 i j ti tj spi spj g holdi holdj hspi hspj hri hrj hgri hgrj

end Prism.PTest

namespace Prism.PTest

/-- One scheduler step preserves group mutual exclusion. -/
theorem mutex_step (ff : Bool) (suites : List TestSuite) (st : RunnerState) (k : Nat)
    (h : MutexInvT suites st.tasks st.locks) :
    MutexInvT suites (step ff suites st k).tasks (step ff suites st k).locks := by
  rcases hk : st.tasks.get? k with _ | tk
  · rw [step, hk]
    exact h
  · rcases hs : suites.get? k with _ | sp
    · rw [step, hk, hs]
      exact h
    · rw [step, hk, hs]
      dsimp only
      rcases hph : tk.phase with r | _ | _ | _ | _ | _
      · rcases r with _ | ⟨dep, rest⟩
        · exact mutexT_set_nonrunning suites st.tasks st.locks k _ h (by simp)
        · dsimp only
          by_cases hev : hasEvent suites dep = true
          · rw [if_pos hev]
            by_cases hset : eventSet suites st.tasks dep = true
            · rw [if_pos hset]
              rcases hfi : firstIndexOf suites dep with _ | j
              · exact mutexT_set_nonrunning suites st.tasks st.locks k _ h (by simp)
              · dsimp only
                rcases hj : st.tasks.get? j with _ | tj
                · exact h
                · dsimp only
                  by_cases hdp : tj.status = TestStatus.passed
                  · rw [if_pos hdp]
                    exact mutexT_set_nonrunning suites st.tasks st.locks k _ h (by simp)
                  · rw [if_neg hdp]
                    exact mutexT_set_nonrunning suites st.tasks st.locks k _ h (by simp)
            · rw [if_neg hset]
              exact h
          · rw [if_neg hev]
            exact mutexT_set_nonrunning suites st.tasks st.locks k _ h (by simp)
      · dsimp only
        by_cases hffl : (ff && st.failed) = true
        · rw [if_pos hffl]
          exact mutexT_set_nonrunning suites st.tasks st.locks k _ h (by simp)
        · rw [if_neg hffl]
          exact mutexT_set_nonrunning suites st.tasks st.locks k _ h (by simp)
      · dsimp only
        by_cases hsem : st.semCount = 0
        · rw [if_pos hsem]
          exact h
        · rw [if_neg hsem]
          rcases hpg : sp.parallel_group with _ | g
          · exact mutexT_set_groupless suites st.tasks st.locks k _ sp h hs hpg
          · exact mutexT_set_nonrunning suites st.tasks st.locks k _ h (by simp)
      · rcases hpg : sp.parallel_group with _ | g
        · exact h
        · dsimp only
          by_cases hmem : g ∈ st.locks
          · rw [if_pos hmem]
            exact h
          · rw [if_neg hmem]
            exact mutexT_acquire suites st.tasks st.locks k _ sp g h hs hpg hmem
      · rcases hpg : sp.parallel_group with _ | g
        · exact mutexT_set_nonrunning suites st.tasks st.locks k _ h (by simp)
        · exact mutexT_release suites st.tasks st.locks k tk _ sp g h hk hph hs hpg (by simp)
      · exact h

end Prism.PTest

namespace Prism

/-! ### Claim C9 — group mutual exclusion -/

/-- The initial state has no running task, so the invariant holds. -/
theorem mutex_init (suites : List PTest.TestSuite) (max_parallel : Nat) :
    PTest.MutexInvT suites (PTest.initState suites max_parallel).tasks
      (PTest.initState suites max_parallel).locks := by
  constructor
  · intro i ti sp g hget hsp hrun hg
    rw [PTest.initState] at hget
    dsimp only at hget
    rw [List.get?_map, hsp] at hget
    simp at hget
    rw [← hget] at hrun
    simp [PTest.initTask] at hrun
  · intro i j ti tj spi spj g hgi hgj hspi hspj hri hrj hgri hgrj
    rw [PTest.initState] at hgi
    dsimp only at hgi
    rw [List.get?_map, hspi] at hgi
    simp at hgi
    rw [← hgi] at hri
    simp [PTest.initTask] at hri

/-- The invariant holds in every reachable state. -/
theorem mutex_run (ff : Bool) (suites : List PTest.TestSuite) :
    ∀ (sched : List Nat) (st : PTest.RunnerState),
      PTest.MutexInvT suites st.tasks st.locks →
      PTest.MutexInvT suites (PTest.run ff suites st sched).tasks
        (PTest.run ff suites st sched).locks := by
  intro sched
  induction sched with
  | nil => intro st h; exact h
  | cons k rest ih =>
      intro st h
      exact ih (PTest.step ff suites st k) (PTest.mutex_step ff suites st k h)

/-- C9: two tasks sharing a parallel group never execute concurrently —
in every state reachable from the initial one, under any schedule and
any concurrency cap, at most one task of each group is in the `running`
phase (so their `[start_time, end_time]` execution intervals cannot
overlap).  Tasks without a group are not gated by this mechanism: the
second conjunct exhibits a reachable state of a group-free registry
with both tasks running simultaneously. -/
theorem C9_group_mutual_exclusion :
    (∀ (ff : Bool) (suites : List PTest.TestSuite) (max_parallel : Nat) (sched : List Nat)
        (i j : Nat) (ti tj : PTest.TaskState) (spi spj : PTest.TestSuite) (g : String),
      (PTest.run ff suites (PTest.initState suites max_parallel) sched).tasks.get? i =
        some ti →
      (PTest.run ff suites (PTest.initState suites max_parallel) sched).tasks.get? j =
        some tj →
      suites.get? i = some spi → suites.get? j = some spj →
      ti.phase = PTest.Phase.running → tj.phase = PTest.Phase.running →
      spi.parallel_group = some g → spj.parallel_group = some g → i = j) ∧
    (PTest.run false PTest.freeSuites (PTest.initState PTest.freeSuites 2)
        [0, 0, 0, 1, 1, 1]).tasks.map (fun t => t.phase) =
      [PTest.Phase.running, PTest.Phase.running] := by
  refine ⟨?_, by decide⟩
  intro ff suites max_parallel sched i j ti tj spi spj g hgi hgj hspi hspj hri hrj hgri hgrj
  exact (mutex_run ff suites sched (PTest.initState suites max_parallel)
    (mutex_init suites max_parallel)).2 i j ti tj spi spj g hgi hgj hspi hspj hri hrj hgri
    hgrj

/-- C9 witness: in the two-suite shared-group registry, after the
schedule that admits suite A and lets it acquire the group lock, suite A
is running; instantiating the mutual-exclusion theorem at that reachable
state discharges all its hypotheses. -/
theorem C9_witness :
    (PTest.run true PTest.grpSuites (PTest.initState PTest.grpSuites 8)
        [0, 0, 0, 0]).tasks.get? 0 =
      some { phase := PTest.Phase.running, status := PTest.TestStatus.running,
             error_message := none, start_time := some 3, end_time := none } ∧
    (0 : Nat) = 0 :=
  ⟨by decide,
    C9_group_mutual_exclusion.1 true PTest.grpSuites 8 [0, 0, 0, 0] 0 0
      { phase := PTest.Phase.running, status := PTest.TestStatus.running,
        error_message := none, start_time := some 3, end_time := none }
      { phase := PTest.Phase.running, status := PTest.TestStatus.running,
        error_message := none, start_time := some 3, end_time := none }
      { name := "A", parallel_group := some "g" } { name := "A", parallel_group := some "g" }
      "g" (by decide) (by decide) (by decide) (by decide) rfl rfl rfl rfl⟩

end Prism

namespace Prism

/-! ### Claim C4 — fail-fast and admission -/

/-- C4 counterexample: fail-fast is enabled, suite A fails (terminal at
clock 6) before suite B is admitted (B starts at clock 7, after blocking
on the single semaphore slot), yet B ends `passed`, not `skipped`: B's
single pre-admission fail-fast check ran before A failed, and nothing
re-checks the flag at admission time. -/
theorem C4_counterexample :
    (PTest.run true PTest.abSuites (PTest.initState PTest.abSuites 1)
        [0, 0, 0, 1, 1, 1, 0, 1, 1]).tasks.map
      (fun t => (t.status, t.start_time, t.end_time)) =
      [(PTest.TestStatus.failed, some 2, some 6),
       (PTest.TestStatus.passed, some 7, some 8)] := by decide

/-- A running task can only stay as it is or finish with its own
outcome. -/
theorem no_preempt_step (ff : Bool) (suites : List PTest.TestSuite)
    (st : PTest.RunnerState) (k i : Nat) (ti ti2 : PTest.TaskState)
    (hP : ∀ t2, st.tasks.get? i = some t2 → t2 = ti ∨
      (t2.phase = PTest.Phase.done ∧
        (t2.status = PTest.TestStatus.passed ∨ t2.status = PTest.TestStatus.failed)))
    (hrun : ti.phase = PTest.Phase.running)
    (hget2 : (PTest.step ff suites st k).tasks.get? i = some ti2) :
    ti2 = ti ∨ (ti2.phase = PTest.Phase.done ∧
      (ti2.status = PTest.TestStatus.passed ∨ ti2.status = PTest.TestStatus.failed)) := by
  by_cases hik : i = k
  · subst hik
    rcases hs0 : st.tasks.get? i with _ | t0
    · rw [PTest.step, hs0] at hget2
      rcases hs1 : suites.get? i with _ | sp <;>
        rw [hs1] at hget2 <;> dsimp only at hget2 <;> rw [hs0] at hget2 <;> cases hget2
    · rcases hP t0 hs0 with rfl | ⟨hdone, hst⟩
      · rcases hs1 : suites.get? i with _ | sp
        · rw [PTest.step, hs0, hs1] at hget2
          dsimp only at hget2
          rw [hs0] at hget2
          cases hget2
          exact Or.inl rfl
        · rw [PTest.step, hs0, hs1] at hget2
          dsimp only at hget2
          rw [hrun] at hget2
          dsimp only at hget2
          rcases PTest.get?_set_cases st.tasks i i _ ti2 hget2 with ⟨_, rfl⟩ | ⟨hne, _⟩
          · refine Or.inr ⟨rfl, ?_⟩
            by_cases hpass : sp.passes = true
            · rw [hpass]
              exact Or.inl rfl
            · rw [Bool.not_eq_true] at hpass
              rw [hpass]
              exact Or.inr rfl
          · exact absurd rfl hne
      · rw [PTest.step_done_frozen ff suites st i i t0 hs0 hdone] at hget2
        cases hget2
        exact Or.inr ⟨hdone, hst⟩
  · rw [PTest.step_tasks_other ff suites st k i hik] at hget2
    exact hP ti2 hget2

/-- C4 amended, part by part.
First conjunct: the fail-fast consultation happens exactly once, after
the dependency waits and before the task requests a semaphore slot; if
at that moment some task has already failed, the task is immediately and
permanently `skipped` with the fail-fast message, without the semaphore
count being touched.
Second conjunct: a task already in the `running` phase is never
preempted — under any further schedule it either is unchanged or has
finished with its own outcome (`passed`/`failed`), never `skipped`.
Third conjunct: the acceptance runner's fail-fast does not skip anything
— a failing result under fail-fast aborts the whole process
(`sys.exit(1)`, modelled as `Except.error 1`). -/
theorem C4_fail_fast_semantics :
    (∀ (suites : List PTest.TestSuite) (st : PTest.RunnerState) (b : Nat)
        (tb : PTest.TaskState) (sp : PTest.TestSuite),
      st.tasks.get? b = some tb → suites.get? b = some sp →
      tb.phase = PTest.Phase.checkFF → st.failed = true →
      (PTest.step true suites st b).tasks.get? b =
        some { tb with phase := PTest.Phase.done, status := PTest.TestStatus.skipped,
                       error_message := some PTest.ffMsg } ∧
      (PTest.step true suites st b).semCount = st.semCount ∧
      (∀ sched, (PTest.run true suites (PTest.step true suites st b) sched).tasks.get? b =
        some { tb with phase := PTest.Phase.done, status := PTest.TestStatus.skipped,
                       error_message := some PTest.ffMsg })) ∧
    (∀ (ff : Bool) (suites : List PTest.TestSuite) (st : PTest.RunnerState) (i : Nat)
        (ti : PTest.TaskState), st.tasks.get? i = some ti →
      ti.phase = PTest.Phase.running →
      ∀ (sched : List Nat) (ti2 : PTest.TaskState),
        (PTest.run ff suites st sched).tasks.get? i = some ti2 →
        ti2 = ti ∨ (ti2.phase = PTest.Phase.done ∧
          (ti2.status = PTest.TestStatus.passed ∨ ti2.status = PTest.TestStatus.failed))) ∧
    (∀ (pat out : String) (dur : ℚ) (rc : Int), rc ≠ 0 →
      PAccept.parse_go_test_output out pat dur = Except.ok [] →
      PAccept.run_pattern_tests pat true (PAccept.PatternRunEvent.ran out rc) dur =
        Except.error 1) := by
  refine ⟨?_, ?_, ?_⟩
  · intro suites st b tb sp hget hsp hph hfail
    have hstep : (PTest.step true suites st b).tasks =
        st.tasks.set b { tb with phase := PTest.Phase.done,
                                 status := PTest.TestStatus.skipped,
                                 error_message := some PTest.ffMsg } ∧
        (PTest.step true suites st b).semCount = st.semCount := by
      rw [PTest.step, hget, hsp]
      dsimp only
      rw [hph]
      dsimp only
      rw [if_pos (by rw [hfail]; rfl)]
      exact ⟨rfl, rfl⟩
    have hget2 : (PTest.step true suites st b).tasks.get? b =
        some { tb with phase := PTest.Phase.done, status := PTest.TestStatus.skipped,
                       error_message := some PTest.ffMsg } := by
      rw [hstep.1, List.get?_set_eq, hget]
      rfl
    refine ⟨hget2, hstep.2, ?_⟩
    intro sched
    exact PTest.run_done_frozen true suites sched _ b _ hget2 rfl
  · intro ff suites st i ti hget hrun sched
    induction sched generalizing st with
    | nil =>
        intro ti2 hget2
        rw [PTest.run, List.foldl_nil] at hget2
        rw [hget] at hget2
        cases hget2
        exact Or.inl rfl
    | cons k rest ih =>
        intro ti2 hget2
        rw [PTest.run, List.foldl_cons] at hget2
        rcases hs : (PTest.step ff suites st k).tasks.get? i with _ | t1
        · -- the entry cannot vanish; derive from shape
          rcases PTest.step_tasks_shape ff suites st k with hsh | ⟨x, hsh⟩
          · rw [hsh, hget] at hs
            cases hs
          · rw [hsh] at hs
            by_cases hik : i = k
            · subst hik
              rw [List.get?_set_eq, hget] at hs
              cases hs
            · rw [List.get?_set_ne _ _ (fun he => hik he.symm), hget] at hs
              cases hs
        · have hP1 := no_preempt_step ff suites st k i ti t1
            (fun t2 h2 => by rw [hget] at h2; cases h2; exact Or.inl rfl) hrun hs
          rcases hP1 with rfl | ⟨hdone, hst⟩
          · exact ih (PTest.step ff suites st k) hs ti2 hget2
          · have hfro := PTest.run_done_frozen ff suites rest
              (PTest.step ff suites st k) i t1 hs hdone
            rw [PTest.run] at hfro
            rw [hfro] at hget2
            cases hget2
            exact Or.inr ⟨hdone, hst⟩
  · intro pat out dur rc hrc hp
    rw [PAccept.run_pattern_tests, hp]
    dsimp only
    rw [if_neg hrc]
    simp [PAccept.TestResult.passed]

end Prism

namespace Prism

/-- C4 witness: a task at its fail-fast check while the shared flag is
set is immediately marked skipped with the fail-fast message. -/
theorem C4_witness :
    (PTest.step true [{ name := "B" }]
        { tasks := [{ phase := PTest.Phase.checkFF, status := PTest.TestStatus.pending,
                      error_message := none, start_time := none, end_time := none }],
          semCount := 5, failed := true, locks := [], clock := 9 } 0).tasks.get? 0 =
      some { phase := PTest.Phase.done, status := PTest.TestStatus.skipped,
             error_message := some PTest.ffMsg, start_time := none, end_time := none } :=
  (C4_fail_fast_semantics.1 [{ name := "B" }]
    { tasks := [{ phase := PTest.Phase.checkFF, status := PTest.TestStatus.pending,
                  error_message := none, start_time := none, end_time := none }],
      semCount := 5, failed := true, locks := [], clock := 9 } 0
    { phase := PTest.Phase.checkFF, status := PTest.TestStatus.pending,
      error_message := none, start_time := none, end_time := none }
    { name := "B" } rfl rfl rfl rfl).1

end Prism

namespace Prism.PTest

/-! ### Skip-cause invariant machinery -/

/-- A successful `findIdx?` points at an element satisfying the
predicate. -/
theorem findIdx?_some_get (p : TestSuite → Bool) :
    ∀ (l : List TestSuite) (i j : Nat), List.findIdx? p l i = some j →
      i ≤ j ∧ ∃ x, l.get? (j - i) = some x ∧ p x = true := by
  intro l
  induction l with
  | nil => intro i j h; rw [List.findIdx?_nil] at h; cases h
  | cons a as ih =>
      intro i j h
      rw [List.findIdx?_cons] at h
      by_cases hpa : p a = true
      · rw [if_pos hpa] at h
        cases h
        exact ⟨le_refl _, a, by simp, hpa⟩
      · rw [if_neg hpa] at h
        obtain ⟨hle, x, hget, hx⟩ := ih (i + 1) j h
        refine ⟨by omega, x, ?_, hx⟩
        have : j - i = (j - (i + 1)) + 1 := by omega
        rw [this]
        exact hget

/-- The first registry index matching a dependency name carries that
name. -/
theorem firstIndexOf_name (suites : List TestSuite) (dep : String) (j : Nat)
    (h : firstIndexOf suites dep = some j) :
    ∃ sp, suites.get? j = some sp ∧ sp.name = dep := by
  rw [firstIndexOf] at h
  obtain ⟨_, x, hget, hx⟩ := findIdx?_some_get _ suites 0 j h
  rw [Nat.sub_zero] at hget
  exact ⟨x, hget, of_decide_eq_true hx⟩

/-- Indices of a duplicate-free list carrying the same element
coincide. -/
theorem nodup_get?_inj {l : List String} (h : l.Nodup) {n j : Nat} {x : String}
    (hn : l.get? n = some x) (hj : l.get? j = some x) : n = j := by
  rw [List.get?_eq_some] at hn hj
  obtain ⟨hn1, hn2⟩ := hn
  obtain ⟨hj1, hj2⟩ := hj
  have heq : l.get ⟨n, hn1⟩ = l.get ⟨j, hj1⟩ := by rw [hn2, hj2]
  exact congrArg Fin.val ((h.get_inj_iff).mp heq)

/-- With duplicate-free names, a set completion event pins down the
first matching task as finished. -/
theorem eventSet_first_done (suites : List TestSuite) (tasks : List TaskState)
    (dep : String) (hnodup : NamesNodup suites)
    (hev : eventSet suites tasks dep = true) (j : Nat)
    (hfi : firstIndexOf suites dep = some j)
    (tj : TaskState) (hj : tasks.get? j = some tj) : tj.phase = Phase.done := by
  obtain ⟨z, hmem, hcond⟩ := List.any_eq_true.mp hev
  rw [Bool.and_eq_true] at hcond
  obtain ⟨hname, hphase⟩ := hcond
  obtain ⟨⟨n, hlt⟩, hget⟩ := List.get_of_mem hmem
  have hzn : (suites.zip tasks).get? n = some z := by
    rw [List.get?_eq_get hlt, hget]
  rw [List.get?_zip_eq_some] at hzn
  obtain ⟨hsn, htn⟩ := hzn
  obtain ⟨spj, hspj, hpj⟩ := firstIndexOf_name suites dep j hfi
  have hnamen : (suites.map TestSuite.name).get? n = some dep := by
    rw [List.get?_map, hsn]
    simp [of_decide_eq_true hname]
  have hnamej : (suites.map TestSuite.name).get? j = some dep := by
    rw [List.get?_map, hspj]
    simp [hpj]
  have hnj : n = j := nodup_get?_inj hnodup hnamen hnamej
  subst hnj
  rw [htn] at hj
  cases hj
  exact of_decide_eq_true hphase

end Prism.PTest

namespace Prism.PTest

/-- A terminal status implies the task reached the `done` phase. -/
theorem statusDone (t : TaskState) (h : StatusPhaseOK t)
    (hs : t.status = TestStatus.passed ∨ t.status = TestStatus.failed ∨
      t.status = TestStatus.skipped) : t.phase = Phase.done := by
  rcases hph : t.phase with r | _ | _ | _ | _ | _
  · unfold StatusPhaseOK at h; rw [hph] at h; dsimp only at h; rw [h] at hs; simp at hs
  · unfold StatusPhaseOK at h; rw [hph] at h; dsimp only at h; rw [h] at hs; simp at hs
  · unfold StatusPhaseOK at h; rw [hph] at h; dsimp only at h; rw [h] at hs; simp at hs
  · unfold StatusPhaseOK at h; rw [hph] at h; dsimp only at h; rw [h] at hs; simp at hs
  · unfold StatusPhaseOK at h; rw [hph] at h; dsimp only at h; rw [h] at hs; simp at hs
  · rfl

/-- Updating a non-done task leaves every finished task's entry in
place. -/
theorem done_entry_stable (st : RunnerState) (k : Nat) (tk : TaskState)
    (hk : st.tasks.get? k = some tk) (htk : tk.phase ≠ Phase.done) (a : TaskState)
    (j : Nat) (tj : TaskState) (hj : st.tasks.get? j = some tj)
    (hdone : tj.phase = Phase.done) : (st.tasks.set k a).get? j = some tj := by
  have hjk : j ≠ k := by
    intro he
    subst he
    rw [hk] at hj
    cases hj
    exact htk hdone
  rw [List.get?_set_ne _ _ (fun he => hjk he.symm)]
  exact hj

/-- The invariant survives replacing a not-yet-finished task `k` by a
new per-task state `a`, given the branch-specific obligations. -/
theorem causeInv_set (ff : Bool) (suites : List TestSuite) (st st2 : RunnerState)
    (k : Nat) (tk a : TaskState)
    (h : CauseInv ff suites st)
    (hk : st.tasks.get? k = some tk)
    (ht2 : st2.tasks = st.tasks.set k a)
    (htkphase : tk.phase ≠ Phase.done)
    (hspOK : StatusPhaseOK a)
    (hfl : st2.failed = true → st.failed = true ∨ a.status = TestStatus.failed)
    (hffwd : st.failed = true → st2.failed = true)
    (hskip : a.status = TestStatus.skipped → SkipCause ff suites st2 k a)
    (hdep : DepProcessed suites st2 k a)
    (hrem : ∀ sp r, suites.get? k = some sp → a.phase = Phase.waitDeps r →
      ∀ d ∈ r, d ∈ sp.depends_on) :
    CauseInv ff suites st2 := by
  obtain ⟨hlen, hcoh, hflag, hsk, hdp, hrs⟩ := h
  refine ⟨?_, ?_, ?_, ?_, ?_, ?_⟩
  · rw [ht2, List.length_set]
    exact hlen
  · intro i ti hget
    rw [ht2] at hget
    rcases get?_set_cases st.tasks k i a ti hget with ⟨_, rfl⟩ | ⟨_, hold⟩
    · exact hspOK
    · exact hcoh i ti hold
  · intro hf2
    rcases hfl hf2 with hf | hf
    · obtain ⟨j, tj, hj, hjf⟩ := hflag hf
      refine ⟨j, tj, ?_, hjf⟩
      rw [ht2]
      exact done_entry_stable st k tk hk htkphase a j tj hj
        (statusDone tj (hcoh j tj hj) (Or.inr (Or.inl hjf)))
    · refine ⟨k, a, ?_, hf⟩
      rw [ht2, List.get?_set_eq, hk]
      rfl
  · intro i ti hget hskipped
    rw [ht2] at hget
    rcases get?_set_cases st.tasks k i a ti hget with ⟨rfl, rfl⟩ | ⟨_, hold⟩
    · exact hskip hskipped
    · rcases hsk i ti hold hskipped with ⟨hmsg, hfft, hflt⟩ | ⟨sp, dep, j, tj, hsp, hdm, hfi, hj, hjd, hjs, hmsg⟩
      · exact Or.inl ⟨hmsg, hfft, hffwd hflt⟩
      · refine Or.inr ⟨sp, dep, j, tj, hsp, hdm, hfi, ?_, hjd, hjs, hmsg⟩
        rw [ht2]
        exact done_entry_stable st k tk hk htkphase a j tj hj hjd
  · intro i ti hget
    rw [ht2] at hget
    rcases get?_set_cases st.tasks k i a ti hget with ⟨rfl, rfl⟩ | ⟨_, hold⟩
    · exact hdep
    · intro sp dep j hsp hdm hfi
      rcases hdp i ti hold sp dep j hsp hdm hfi with h1 | h2 | ⟨tj, hj, hjp⟩
      · exact Or.inl h1
      · exact Or.inr (Or.inl h2)
      · refine Or.inr (Or.inr ⟨tj, ?_, hjp⟩)
        rw [ht2]
        exact done_entry_stable st k tk hk htkphase a j tj hj
          (statusDone tj (hcoh j tj hj) (Or.inl hjp))
  · intro i ti sp r hget hsp hph d hd
    rw [ht2] at hget
    rcases get?_set_cases st.tasks k i a ti hget with ⟨rfl, rfl⟩ | ⟨_, hold⟩
    · exact hrem sp r hsp hph d hd
    · exact hrs i ti sp r hold hsp hph d hd

/-- A resolvable dependency name always has a completion event. -/
theorem firstIndexOf_hasEvent (suites : List TestSuite) (dep : String) (j : Nat)
    (h : firstIndexOf suites dep = some j) : hasEvent suites dep = true := by
  obtain ⟨sp, hget, hname⟩ := firstIndexOf_name suites dep j h
  rw [hasEvent]
  refine List.any_eq_true.mpr ⟨sp, ?_, by simp [hname]⟩
  rw [List.get?_eq_some] at hget
  obtain ⟨hlt, hgete⟩ := hget
  rw [← hgete]
  exact List.get_mem suites _ _

end Prism.PTest

namespace Prism.PTest

/-- Dependency bookkeeping is stable for a task not sitting in the
dependency loop. -/
theorem depProc_no_waitdeps (ff : Bool) (suites : List TestSuite) (st : RunnerState)
    (k : Nat) (tk a : TaskState) (h : CauseInv ff suites st)
    (hk : st.tasks.get? k = some tk) (htkphase : tk.phase ≠ Phase.done)
    (hnowait : ∀ r, tk.phase ≠ Phase.waitDeps r)
    (hnotskip : tk.status ≠ TestStatus.skipped)
    (st2 : RunnerState) (ht2 : st2.tasks = st.tasks.set k a) :
    DepProcessed suites st2 k a := by
  intro sp dep j hsp hdm hfi
  rcases h.2.2.2.2.1 k tk hk sp dep j hsp hdm hfi with ⟨r, hr, _⟩ | hsk | ⟨tj, hj, hjp⟩
  · exact absurd hr (hnowait r)
  · exact absurd hsk hnotskip
  · refine Or.inr (Or.inr ⟨tj, ?_, hjp⟩)
    rw [ht2]
    exact done_entry_stable st k tk hk htkphase a j tj hj
      (statusDone tj (h.2.1 j tj hj) (Or.inl hjp))

/-- One scheduler step preserves the skip-cause invariant. -/
theorem cause_step (ff : Bool) (suites : List TestSuite) (st : RunnerState) (k : Nat)
    (hnodup : NamesNodup suites) (h : CauseInv ff suites st) :
    CauseInv ff suites (step ff suites st k) := by
  rcases hk : st.tasks.get? k with _ | tk
  · rw [step, hk]
    exact h
  · rcases hs : suites.get? k with _ | sp
    · rw [step, hk, hs]
      exact h
    · have hcoh := h.2.1 k tk hk
      rw [step, hk, hs]
      dsimp only
      rcases hph : tk.phase with r | _ | _ | _ | _ | _
      · unfold StatusPhaseOK at hcoh
        rw [hph] at hcoh
        dsimp only at hcoh
        rcases r with _ | ⟨dep, rest⟩
        · refine causeInv_set ff suites st _ k tk _ h hk rfl (by simp [hph]) ?_
            (fun hf2 => Or.inl hf2) (fun hf => hf) ?_ ?_ ?_
          · unfold StatusPhaseOK
            exact hcoh
          · intro hsk
            rw [hcoh] at hsk
            simp at hsk
          · intro sp2 dep j hsp2 hdm hfi
            rcases h.2.2.2.2.1 k tk hk sp2 dep j hsp2 hdm hfi with ⟨r, hr, hmem⟩ | hsk |
              ⟨tj, hj, hjp⟩
            · rw [hph] at hr
              cases hr
              simp at hmem
            · rw [hcoh] at hsk
              simp at hsk
            · refine Or.inr (Or.inr ⟨tj, ?_, hjp⟩)
              exact done_entry_stable st k tk hk (by simp [hph]) _ j tj hj
                (statusDone tj (h.2.1 j tj hj) (Or.inl hjp))
          · intro sp2 r hsp2 hphase
            simp at hphase
        · dsimp only
          by_cases hev : hasEvent suites dep = true
          · rw [if_pos hev]
            by_cases hset : eventSet suites st.tasks dep = true
            · rw [if_pos hset]
              rcases hfi : firstIndexOf suites dep with _ | j
              · -- dep_suite is None (unreachable when the event exists)
                refine causeInv_set ff suites st _ k tk _ h hk rfl (by simp [hph])
                  (by unfold StatusPhaseOK; exact hcoh) (fun hf2 => Or.inl hf2)
                  (fun hf => hf) ?_ ?_ ?_
                · intro hsk
                  rw [hcoh] at hsk
                  simp at hsk
                · intro sp2 dep0 j0 hsp2 hdm hfi0
                  rcases h.2.2.2.2.1 k tk hk sp2 dep0 j0 hsp2 hdm hfi0 with
                    ⟨r, hr, hmem⟩ | hsk | ⟨tj, hj, hjp⟩
                  · rw [hph] at hr
                    cases hr
                    rcases List.mem_cons.mp hmem with rfl | hmem2
                    · rw [hfi0] at hfi
                      cases hfi
                    · exact Or.inl ⟨rest, rfl, hmem2⟩
                  · rw [hcoh] at hsk
                    simp at hsk
                  · refine Or.inr (Or.inr ⟨tj, ?_, hjp⟩)
                    exact done_entry_stable st k tk hk (by simp [hph]) _ j0 tj hj
                      (statusDone tj (h.2.1 j0 tj hj) (Or.inl hjp))
                · intro sp2 r hsp2 hphase d hd
                  dsimp only at hphase
                  cases hphase
                  exact h.2.2.2.2.2 k tk sp2 (dep :: rest) hk hsp2 hph d
                    (List.mem_cons_of_mem _ hd)
              · dsimp only
                rcases hj : st.tasks.get? j with _ | tj
                · exact h
                · dsimp only
                  by_cases hdp : tj.status = TestStatus.passed
                  · rw [if_pos hdp]
                    refine causeInv_set ff suites st _ k tk _ h hk rfl (by simp [hph])
                      (by unfold StatusPhaseOK; exact hcoh) (fun hf2 => Or.inl hf2)
                      (fun hf => hf) ?_ ?_ ?_
                    · intro hsk
                      rw [hcoh] at hsk
                      simp at hsk
                    · intro sp2 dep0 j0 hsp2 hdm hfi0
                      rcases h.2.2.2.2.1 k tk hk sp2 dep0 j0 hsp2 hdm hfi0 with
                        ⟨r, hr, hmem⟩ | hsk | ⟨tj2, hj2, hjp⟩
                      · rw [hph] at hr
                        cases hr
                        rcases List.mem_cons.mp hmem with rfl | hmem2
                        · rw [hfi0] at hfi
                          cases hfi
                          refine Or.inr (Or.inr ⟨tj, ?_, hdp⟩)
                          exact done_entry_stable st k tk hk (by simp [hph]) _ _ tj hj
                            (statusDone tj (h.2.1 _ tj hj) (Or.inl hdp))
                        · exact Or.inl ⟨rest, rfl, hmem2⟩
                      · rw [hcoh] at hsk
                        simp at hsk
                      · refine Or.inr (Or.inr ⟨tj2, ?_, hjp⟩)
                        exact done_entry_stable st k tk hk (by simp [hph]) _ j0 tj2 hj2
                          (statusDone tj2 (h.2.1 j0 tj2 hj2) (Or.inl hjp))
                    · intro sp2 r hsp2 hphase d hd
                      dsimp only at hphase
                      cases hphase
                      exact h.2.2.2.2.2 k tk sp2 (dep :: rest) hk hsp2 hph d
                        (List.mem_cons_of_mem _ hd)
                  · rw [if_neg hdp]
                    have hjdone : tj.phase = Phase.done :=
                      eventSet_first_done suites st.tasks dep hnodup hset j hfi tj hj
                    refine causeInv_set ff suites st _ k tk _ h hk rfl (by simp [hph])
                      (by unfold StatusPhaseOK; dsimp only; simp) (fun hf2 => Or.inl hf2)
                      (fun hf => hf) ?_ ?_ ?_
                    · intro _
                      refine Or.inr ⟨sp, dep, j, tj, hs, ?_, hfi, ?_, hjdone, hdp, rfl⟩
                      · exact h.2.2.2.2.2 k tk sp (dep :: rest) hk hs hph dep
                          (List.mem_cons_self _ _)
                      · exact done_entry_stable st k tk hk (by simp [hph]) _ j tj hj hjdone
                    · intro sp2 dep0 j0 hsp2 hdm hfi0
                      exact Or.inr (Or.inl rfl)
                    · intro sp2 r hsp2 hphase d hd
                      simp at hphase
            · rw [if_neg hset]
              exact h
          · rw [if_neg hev]
            refine causeInv_set ff suites st _ k tk _ h hk rfl (by simp [hph])
              (by unfold StatusPhaseOK; exact hcoh) (fun hf2 => Or.inl hf2)
              (fun hf => hf) ?_ ?_ ?_
            · intro hsk
              rw [hcoh] at hsk
              simp at hsk
            · intro sp2 dep0 j0 hsp2 hdm hfi0
              rcases h.2.2.2.2.1 k tk hk sp2 dep0 j0 hsp2 hdm hfi0 with
                ⟨r, hr, hmem⟩ | hsk | ⟨tj, hj, hjp⟩
              · rw [hph] at hr
                cases hr
                rcases List.mem_cons.mp hmem with rfl | hmem2
                · rw [firstIndexOf_hasEvent suites dep0 j0 hfi0] at hev
                  simp at hev
                · exact Or.inl ⟨rest, rfl, hmem2⟩
              · rw [hcoh] at hsk
                simp at hsk
              · refine Or.inr (Or.inr ⟨tj, ?_, hjp⟩)
                exact done_entry_stable st k tk hk (by simp [hph]) _ j0 tj hj
                  (statusDone tj (h.2.1 j0 tj hj) (Or.inl hjp))
            · intro sp2 r hsp2 hphase d hd
              dsimp only at hphase
              cases hphase
              exact h.2.2.2.2.2 k tk sp2 (dep :: rest) hk hsp2 hph d
                (List.mem_cons_of_mem _ hd)
      · unfold StatusPhaseOK at hcoh
        rw [hph] at hcoh
        dsimp only at hcoh
        dsimp only
        by_cases hffl : (ff && st.failed) = true
        · rw [if_pos hffl]
          rw [Bool.and_eq_true] at hffl
          refine causeInv_set ff suites st _ k tk _ h hk rfl (by simp [hph])
            (by unfold StatusPhaseOK; dsimp only; simp) (fun hf2 => Or.inl hf2)
            (fun hf => hf) ?_ ?_ ?_
          · intro _
            exact Or.inl ⟨rfl, hffl.1, hffl.2⟩
          · intro sp2 dep0 j0 hsp2 hdm hfi0
            exact Or.inr (Or.inl rfl)
          · intro sp2 r hsp2 hphase d hd
            simp at hphase
        · rw [if_neg hffl]
          refine causeInv_set ff suites st _ k tk _ h hk rfl (by simp [hph])
            (by unfold StatusPhaseOK; exact hcoh) (fun hf2 => Or.inl hf2)
            (fun hf => hf) ?_ ?_ ?_
          · intro hsk
            rw [hcoh] at hsk
            simp at hsk
          · exact depProc_no_waitdeps ff suites st k tk _ h hk (by simp [hph])
              (by simp [hph]) (by rw [hcoh]; simp) _ rfl
          · intro sp2 r hsp2 hphase d hd
            simp at hphase
      · unfold StatusPhaseOK at hcoh
        rw [hph] at hcoh
        dsimp only at hcoh
        dsimp only
        by_cases hsem : st.semCount = 0
        · rw [if_pos hsem]
          exact h
        · rw [if_neg hsem]
          rcases hpg : sp.parallel_group with _ | g
          · refine causeInv_set ff suites st _ k tk _ h hk rfl (by simp [hph])
              (by unfold StatusPhaseOK; dsimp only) (fun hf2 => Or.inl hf2)
              (fun hf => hf) ?_ ?_ ?_
            · intro hsk
              simp at hsk
            · exact depProc_no_waitdeps ff suites st k tk _ h hk (by simp [hph])
                (by simp [hph]) (by rw [hcoh]; simp) _ rfl
            · intro sp2 r hsp2 hphase d hd
              simp at hphase
          · refine causeInv_set ff suites st _ k tk _ h hk rfl (by simp [hph])
              (by unfold StatusPhaseOK; exact hcoh) (fun hf2 => Or.inl hf2)
              (fun hf => hf) ?_ ?_ ?_
            · intro hsk
              rw [hcoh] at hsk
              simp at hsk
            · exact depProc_no_waitdeps ff suites st k tk _ h hk (by simp [hph])
                (by simp [hph]) (by rw [hcoh]; simp) _ rfl
            · intro sp2 r hsp2 hphase d hd
              simp at hphase
      · unfold StatusPhaseOK at hcoh
        rw [hph] at hcoh
        dsimp only at hcoh
        dsimp only
        rcases hpg : sp.parallel_group with _ | g
        · exact h
        · dsimp only
          by_cases hmem : g ∈ st.locks
          · rw [if_pos hmem]
            exact h
          · rw [if_neg hmem]
            refine causeInv_set ff suites st _ k tk _ h hk rfl (by simp [hph])
              (by unfold StatusPhaseOK; dsimp only) (fun hf2 => Or.inl hf2)
              (fun hf => hf) ?_ ?_ ?_
            · intro hsk
              simp at hsk
            · exact depProc_no_waitdeps ff suites st k tk _ h hk (by simp [hph])
                (by simp [hph]) (by rw [hcoh]; simp) _ rfl
            · intro sp2 r hsp2 hphase d hd
              simp at hphase
      · unfold StatusPhaseOK at hcoh
        rw [hph] at hcoh
        dsimp only at hcoh
        dsimp only
        refine causeInv_set ff suites st _ k tk _ h hk rfl (by simp [hph]) ?_ ?_ ?_ ?_ ?_ ?_
        · unfold StatusPhaseOK
          dsimp only
          by_cases hpass : sp.passes = true
          · rw [hpass]
            simp
          · rw [Bool.not_eq_true] at hpass
            rw [hpass]
            simp
        · intro hf2
          dsimp only at hf2
          rcases Bool.or_eq_true_iff.mp hf2 with hf | hf
          · exact Or.inl hf
          · rw [Bool.not_eq_true'] at hf
            rw [hf]
            exact Or.inr (by simp)
        · intro hf
          dsimp only
          rw [hf]
          simp
        · intro hsk
          dsimp only at hsk
          by_cases hpass : sp.passes = true
          · rw [hpass] at hsk
            simp at hsk
          · rw [Bool.not_eq_true] at hpass
            rw [hpass] at hsk
            simp at hsk
        · exact depProc_no_waitdeps ff suites st k tk _ h hk (by simp [hph])
            (by simp [hph]) (by rw [hcoh]; simp) _ rfl
        · intro sp2 r hsp2 hphase d hd
          simp at hphase
      · exact h

end Prism.PTest

namespace Prism.PTest

/-- Unfolding `initState`: every initial task entry is `initTask` of the
suite at the same index. -/
theorem init_get (suites : List TestSuite) (m : Nat) (i : Nat) (ti : TaskState)
    (h : (initState suites m).tasks.get? i = some ti) :
    ∃ sp, suites.get? i = some sp ∧ ti = initTask sp := by
  rw [initState] at h
  dsimp only at h
  rw [List.get?_map] at h
  rcases hs : suites.get? i with _ | sp
  · rw [hs] at h
    cases h
  · rw [hs] at h
    refine ⟨sp, rfl, ?_⟩
    simpa using h.symm

/-- The skip-reason invariant holds in the initial state of the runner. -/
theorem cause_init (ff : Bool) (suites : List TestSuite) (m : Nat) :
    CauseInv ff suites (initState suites m) := by
  refine ⟨by simp [initState], ?_, ?_, ?_, ?_, ?_⟩
  · intro i ti hti
    rcases init_get suites m i ti hti with ⟨sp, _, rfl⟩
    simp [StatusPhaseOK, initTask]
  · intro hf
    simp [initState] at hf
  · intro i ti hti hsk
    rcases init_get suites m i ti hti with ⟨sp, _, rfl⟩
    simp [initTask] at hsk
  · intro i ti hti
    intro sp dep j hsp hdep hfi
    rcases init_get suites m i ti hti with ⟨sp2, hs2, rfl⟩
    rw [hsp] at hs2
    cases hs2
    exact Or.inl ⟨sp.depends_on, rfl, hdep⟩
  · intro i ti sp r hti hsp hph d hd
    rcases init_get suites m i ti hti with ⟨sp2, hs2, rfl⟩
    rw [hsp] at hs2
    cases hs2
    simp [initTask] at hph
    rw [hph]
    exact hd

/-- The skip-reason invariant is preserved by any whole schedule. -/
theorem cause_run (ff : Bool) (suites : List TestSuite) (hnodup : NamesNodup suites)
    (sched : List Nat) (st : RunnerState) (h : CauseInv ff suites st) :
    CauseInv ff suites (run ff suites st sched) := by
  induction sched generalizing st with
  | nil => exact h
  | cons k rest ih =>
      have hfold : run ff suites st (k :: rest) = run ff suites (step ff suites st k) rest := by
        rw [run, run, List.foldl_cons]
      rw [hfold]
      exact ih _ (cause_step ff suites st k hnodup h)

end Prism.PTest

namespace Prism

/-- The per-module lint loop never yields the `skipped` status: its
outcomes are `passed`, `failed`, a spawn failure or a timeout. -/
theorem lint_loop_ne_skipped (t acc : Nat) (mods : List (String × PLint.ModuleEvent)) :
    (PLint.run_category_loop t acc mods).status ≠ PLint.LintStatus.skipped := by
  induction mods generalizing acc with
  | nil =>
      by_cases h : 0 < acc <;> simp [PLint.run_category_loop, h]
  | cons md rest ih =>
      rcases md with ⟨dir, ev⟩
      rcases ev with msg | ⟨issues, runTime, rc⟩
      · simp [PLint.run_category_loop]
      · rw [PLint.run_category_loop]
        by_cases h : runTime > t
        · rw [if_pos h]
          simp
        · rw [if_neg h]
          exact ih _

/-- C7: In every run of the test scheduler from the initial state — any
fail-fast setting, concurrency cap and schedule, distinct suite names — (1)
every task that ends `skipped` carries one of the two recorded skip reasons
of `run_suite`: the fail-fast message with the shared failure flag indeed
tripped, or a message naming a dependency whose first registry match
finished without passing (never a silent skip); (2) in a finished run, every
task with a resolvable dependency whose first registry match did not pass
ends `skipped`; (3) the lint runner's `run_category`, by contrast, yields
`skipped` exactly when the category has no Go modules — a third skip cause
outside the two the claim allows. -/
theorem C7_skip_reasons (ff : Bool) (suites : List PTest.TestSuite) (m : Nat)
    (sched : List Nat) (hnodup : PTest.NamesNodup suites) :
    (∀ i ti,
      (PTest.run ff suites (PTest.initState suites m) sched).tasks.get? i = some ti →
      ti.status = PTest.TestStatus.skipped →
      PTest.SkipCause ff suites (PTest.run ff suites (PTest.initState suites m) sched) i ti) ∧
    PTest.SkipComplete suites (PTest.run ff suites (PTest.initState suites m) sched) ∧
    (∀ timeout modules,
      (PLint.run_category timeout modules).status = PLint.LintStatus.skipped ↔
        modules = []) := by
  have hinv := PTest.cause_run ff suites hnodup sched _ (PTest.cause_init ff suites m)
  refine ⟨hinv.2.2.2.1, ?_, ?_⟩
  · intro halldone i ti sp dep j tj hi hsp hdep hfi hj hnp
    rcases hinv.2.2.2.2.1 i ti hi sp dep j hsp hdep hfi with ⟨r, hr, _⟩ | hsk | ⟨tj2, hj2, hp2⟩
    · rw [halldone i ti hi] at hr
      exact PTest.Phase.noConfusion hr
    · exact hsk
    · rw [hj] at hj2
      cases hj2
      exact absurd hp2 hnp
  · intro t mods
    constructor
    · intro h
      rcases mods with _ | ⟨md, rest⟩
      · rfl
      · rw [PLint.run_category] at h
        simp only [List.isEmpty_cons, Bool.false_eq_true, if_false] at h
        exact absurd h (lint_loop_ne_skipped t 0 _)
    · rintro rfl
      rfl

/-- A skip caused by neither a failed dependency nor fail-fast: with no Go
modules found, the lint runner marks the category `skipped` (with the
reason recorded as text). -/
theorem C7_counterexample :
    PLint.run_category 300 [] =
      { status := PLint.LintStatus.skipped, error := some "No Go modules found",
        issues_count := 0 } := rfl

/-- C7 witness: the X-depends-on-Y registry has distinct names and the skip
reason properties hold for its concrete failing run. -/
theorem C7_witness :
    PTest.NamesNodup PTest.xySuites ∧
    ((∀ i ti,
      (PTest.run true PTest.xySuites (PTest.initState PTest.xySuites 2)
        [0, 0, 0, 0, 1]).tasks.get? i = some ti →
      ti.status = PTest.TestStatus.skipped →
      PTest.SkipCause true PTest.xySuites
        (PTest.run true PTest.xySuites (PTest.initState PTest.xySuites 2)
          [0, 0, 0, 0, 1]) i ti) ∧
    PTest.SkipComplete PTest.xySuites
      (PTest.run true PTest.xySuites (PTest.initState PTest.xySuites 2) [0, 0, 0, 0, 1]) ∧
    (∀ timeout modules,
      (PLint.run_category timeout modules).status = PLint.LintStatus.skipped ↔
        modules = [])) :=
  ⟨by decide, C7_skip_reasons true PTest.xySuites 2 [0, 0, 0, 0, 1] (by decide)⟩

end Prism
